import Mathlib

/-!
Verification of the pip-requirements-parser specification against a shallow
embedding of `src/pip_requirements.py`.

Python data is modelled as follows: `str` becomes `String` (manipulated
through structurally recursive helpers over `List Char` so that concrete
computations reduce), `set` of names becomes `Finset String`, `dict` becomes
an association list in insertion order, raised exceptions become
`Except String`.  Definitions named after the source
(`handle_mutual_excludes`, `join_lines`, `split_comments`, ...) are direct
translations of the corresponding Python functions.  Functionality the
repository imports from external libraries (the `packaging` grammar engine,
`urllib`, `shlex`, `optparse`, `hashlib`) is modelled from its documented
interface and marked `Modelled from the spec` in the doc string.
-/

set_option maxHeartbeats 1000000

namespace PipReq

/-! ### Python string helpers -/

/-- Python `str` whitespace (the ASCII part of `str.strip()` / `\s`). -/
def isPySpace (c : Char) : Bool :=
  c = ' ' || c = '\t' || c = '\n' || c = '\r' || c = '\x0b' || c = '\x0c'

/-- Python `s.strip()` restricted to ASCII whitespace. -/
def pyStrip (s : String) : String :=
  String.mk (((s.data.dropWhile fun c => isPySpace c).reverse.dropWhile
    fun c => isPySpace c).reverse)

/-- Python `s.strip(c)` for a single strip character. -/
def pyStripChar (s : String) (c : Char) : String :=
  String.mk (((s.data.dropWhile fun d => d = c).reverse.dropWhile fun d => d = c).reverse)

/-- Python `s.lower()` restricted to ASCII. -/
def pyLower (s : String) : String :=
  String.mk (s.data.map Char.toLower)

/-- Does the character list start with the given pattern list? -/
def startsWithL : List Char → List Char → Bool
  | [], _ => true
  | _ :: _, [] => false
  | p :: ps, c :: cs => p = c && startsWithL ps cs

/-- Python `s.startswith(pat)`. -/
def pyStartsWith (s pat : String) : Bool :=
  startsWithL pat.data s.data

/-- Python `s.endswith(pat)`. -/
def pyEndsWith (s pat : String) : Bool :=
  startsWithL pat.data.reverse s.data.reverse

/-- Python `"sub" in s` (substring containment). -/
def containsL (sub : List Char) : List Char → Bool
  | [] => startsWithL sub []
  | c :: cs => startsWithL sub (c :: cs) || containsL sub cs

/-- Python `sub in s`. -/
def pyContains (s sub : String) : Bool :=
  containsL sub.data s.data

/-- Worker for `pySplitChar`. -/
def pySplitAux (sep : Char) : List Char → List Char → List (List Char)
  | [], acc => [acc.reverse]
  | c :: rest, acc =>
    if c = sep then acc.reverse :: pySplitAux sep rest []
    else pySplitAux sep rest (c :: acc)

/-- Python `s.split(sep)` for a one-character separator
(`"".split(",") = [""]`, empty fields kept). -/
def pySplitChar (s : String) (sep : Char) : List String :=
  (pySplitAux sep s.data []).map String.mk

/-- Worker for `splitOnceL`: split a character list at the first occurrence of
the pattern, returning the parts before and after it. -/
def splitOnceL (pat : List Char) : List Char → Option (List Char × List Char)
  | [] => if pat = [] then some ([], []) else none
  | c :: cs =>
    if startsWithL pat (c :: cs) then some ([], (c :: cs).drop pat.length)
    else match splitOnceL pat cs with
      | some (pre, post) => some (c :: pre, post)
      | none => none

/-- Python `s.split(sep, 1)` when `sep` occurs: the pieces before and after
the first occurrence of `sep`. `none` when `sep` does not occur. -/
def pySplitOnce (s sep : String) : Option (String × String) :=
  match splitOnceL sep.data s.data with
  | some (pre, post) => some (String.mk pre, String.mk post)
  | none => none

/-- Python `s.rsplit(sep, 1)[-1]` for a one-character separator: the part
after the last occurrence, or the whole string. -/
def pyAfterLastChar (s : String) (sep : Char) : String :=
  String.mk (((s.data.reverse).takeWhile fun c => c ≠ sep).reverse)

/-! ### `canonicalize_name` -/

/-- Worker for `canonicalize_name`: replace runs of `-`, `_`, `.` by one `-`,
lowercase everything else.  The boolean records whether the previous character
belonged to a run. -/
def canonAux : Bool → List Char → List Char
  | _, [] => []
  | prevSep, c :: rest =>
    if c = '-' || c = '_' || c = '.' then
      if prevSep then canonAux true rest
      else '-' :: canonAux true rest
    else c.toLower :: canonAux false rest

/-- Modelled from the spec: canonical package-name normalization is supplied
externally as `canonicalize(name) -> string`
(`packaging.utils.canonicalize_name`, which is
`re.sub(r"[-_.]+", "-", name).lower()` for ASCII input). -/
def canonicalize_name (s : String) : String :=
  String.mk (canonAux false s.data)

/-! ### `FormatControl.handle_mutual_excludes`

The Python function mutates two `set` objects; the embedding passes the two
`Finset String` values explicitly and returns the updated pair, with the
raised `CommandError` as `Except.error`. -/

/-- `del new[: new.index(":all:") + 1]`: the list elements strictly after the
first `":all:"`. -/
def afterAll : List String → List String
  | [] => []
  | x :: rest => if x = ":all:" then rest else afterAll rest

theorem afterAll_length_lt {l : List String} (h : ":all:" ∈ l) :
    (afterAll l).length < l.length := by
  induction l with
  | nil => cases h
  | cons x rest ih =>
    by_cases hx : x = ":all:"
    · simp [afterAll, hx]
    · have hmem : ":all:" ∈ rest := by
        rcases List.mem_cons.mp h with h1 | h1
        · exact absurd h1.symm hx
        · exact h1
      simp only [afterAll, if_neg hx, List.length_cons]
      exact Nat.lt_trans (ih hmem) (Nat.lt_succ_self _)

/-- The `while ":all:" in new:` loop of `handle_mutual_excludes`.  Returns a
flag recording whether the function returned early (the `return` inside the
loop), the remaining list, and the updated `(target, other)` sets. -/
def hmeWhile (new : List String) (target other : Finset String) :
    Bool × List String × Finset String × Finset String :=
  if h : ":all:" ∈ new then
    if ":none:" ∈ afterAll new then hmeWhile (afterAll new) {":all:"} ∅
    else (true, afterAll new, {":all:"}, ∅)
  else (false, new, target, other)
termination_by new.length
decreasing_by exact afterAll_length_lt h

/-- The trailing `for name in new:` loop of `handle_mutual_excludes`. -/
def hmeFor : List String → Finset String → Finset String → Finset String × Finset String
  | [], target, other => (target, other)
  | name :: rest, target, other =>
    if name = ":none:" then hmeFor rest ∅ other
    else
      hmeFor rest (insert (canonicalize_name name) target)
        (other.erase (canonicalize_name name))

/-- `FormatControl.handle_mutual_excludes(value, target, other)`
(src/pip_requirements.py:398-419), returning the updated `(target, other)`
pair. -/
def handle_mutual_excludes (value : String) (target other : Finset String) :
    Except String (Finset String × Finset String) :=
  if pyStartsWith value "-" then
    .error "--no-binary / --only-binary option requires 1 argument."
  else
    match hmeWhile (pySplitChar value ',') target other with
    | (true, _, t2, o2) => .ok (t2, o2)
    | (false, rem, t2, o2) => .ok (hmeFor rem t2 o2)

/-- One `--no-binary`/`--only-binary` directive applied to the state
`(no_binary, only_binary)`; the boolean selects the target set (`true` =
`no_binary`).  A raised `CommandError` leaves the sets unchanged. -/
def applyMutexDirective (st : Finset String × Finset String) (u : String × Bool) :
    Finset String × Finset String :=
  if u.2 then
    match handle_mutual_excludes u.1 st.1 st.2 with
    | .ok (t, o) => (t, o)
    | .error _ => st
  else
    match handle_mutual_excludes u.1 st.2 st.1 with
    | .ok (t, o) => (o, t)
    | .error _ => st

/-- A finite sequence of format-control updates starting from empty sets. -/
def applyMutexDirectives (us : List (String × Bool)) : Finset String × Finset String :=
  us.foldl applyMutexDirective (∅, ∅)

theorem hmeFor_disjoint :
    ∀ (l : List String) (t o : Finset String), Disjoint t o →
      Disjoint (hmeFor l t o).1 (hmeFor l t o).2 := by
  intro l
  induction l with
  | nil => intro t o h; exact h
  | cons name rest ih =>
    intro t o h
    by_cases hn : name = ":none:"
    · simpa [hmeFor, hn] using ih ∅ o (Finset.disjoint_empty_left o)
    · have hdisj : Disjoint (insert (canonicalize_name name) t)
          (o.erase (canonicalize_name name)) := by
        rw [Finset.disjoint_left]
        intro a ha hao
        rcases Finset.mem_insert.mp ha with h1 | h1
        · exact Finset.not_mem_erase _ _ (h1 ▸ hao)
        · exact (Finset.disjoint_left.mp h) h1 (Finset.mem_of_mem_erase hao)
      simpa [hmeFor, hn] using ih _ _ hdisj

theorem hmeWhile_disjoint_aux :
    ∀ (n : Nat) (l : List String), l.length ≤ n → ∀ (t o : Finset String), Disjoint t o →
      Disjoint (hmeWhile l t o).2.2.1 (hmeWhile l t o).2.2.2 := by
  intro n
  induction n with
  | zero =>
    intro l hl t o h
    have hnil : l = [] := List.length_eq_zero.mp (Nat.le_zero.mp hl)
    subst hnil
    rw [hmeWhile]
    exact h
  | succ n ih =>
    intro l hl t o h
    rw [hmeWhile]
    by_cases hmem : ":all:" ∈ l
    · rw [dif_pos hmem]
      by_cases hnone : ":none:" ∈ afterAll l
      · rw [if_pos hnone]
        exact ih (afterAll l)
          (Nat.le_of_lt_succ (Nat.lt_of_lt_of_le (afterAll_length_lt hmem) hl)) _ _
          (Finset.disjoint_empty_right _)
      · rw [if_neg hnone]
        exact Finset.disjoint_empty_right _
    · rw [dif_neg hmem]
      exact h

theorem hmeWhile_disjoint (l : List String) (t o : Finset String) (h : Disjoint t o) :
    Disjoint (hmeWhile l t o).2.2.1 (hmeWhile l t o).2.2.2 :=
  hmeWhile_disjoint_aux l.length l (Nat.le_refl _) t o h

theorem handle_mutual_excludes_disjoint {v : String} {t o : Finset String}
    {p : Finset String × Finset String}
    (h : Disjoint t o) (hok : handle_mutual_excludes v t o = .ok p) :
    Disjoint p.1 p.2 := by
  unfold handle_mutual_excludes at hok
  by_cases hs : pyStartsWith v "-"
  · simp [hs] at hok
  · simp only [hs, Bool.false_eq_true, if_false] at hok
    have hw := hmeWhile_disjoint (pySplitChar v ',') t o h
    rcases hrw : hmeWhile (pySplitChar v ',') t o with ⟨b, rem, tw, ow⟩
    rw [hrw] at hok hw
    cases b with
    | true =>
      simp only [Except.ok.injEq] at hok
      rw [← hok]
      exact hw
    | false =>
      simp only [Except.ok.injEq] at hok
      rw [← hok]
      exact hmeFor_disjoint rem tw ow hw

theorem applyMutexDirective_disjoint {st : Finset String × Finset String}
    (h : Disjoint st.1 st.2) (u : String × Bool) :
    Disjoint (applyMutexDirective st u).1 (applyMutexDirective st u).2 := by
  unfold applyMutexDirective
  by_cases hu : u.2
  · simp only [if_pos hu]
    rcases hr : handle_mutual_excludes u.1 st.1 st.2 with e | ⟨t2, o2⟩
    · exact h
    · exact handle_mutual_excludes_disjoint h hr
  · simp only [if_neg hu]
    rcases hr : handle_mutual_excludes u.1 st.2 st.1 with e | ⟨t2, o2⟩
    · exact h
    · exact (handle_mutual_excludes_disjoint h.symm hr).symm

theorem applyMutexDirectives_disjoint (us : List (String × Bool)) :
    Disjoint (applyMutexDirectives us).1 (applyMutexDirectives us).2 := by
  have main : ∀ (l : List (String × Bool)) (st : Finset String × Finset String),
      Disjoint st.1 st.2 →
      Disjoint (l.foldl applyMutexDirective st).1 (l.foldl applyMutexDirective st).2 := by
    intro l
    induction l with
    | nil => intro st h; exact h
    | cons u rest ih =>
      intro st h
      exact ih _ (applyMutexDirective_disjoint h u)
  exact main us (∅, ∅) (Finset.disjoint_empty_left _)

/-- C1: starting from empty `no_binary`/`only_binary`, the update `":all:"`
(target `no_binary`, other `only_binary`) clears both sets and installs the
sentinel, and the following update `":none:,foo"` on the same target clears
`no_binary` again and then adds the canonicalized name, leaving exactly
`no_binary = {"foo"}` and `only_binary = {}`. -/
theorem hme_all_then_none_foo :
    handle_mutual_excludes ":all:" ∅ ∅ = .ok ({":all:"}, ∅) ∧
    handle_mutual_excludes ":none:,foo" {":all:"} ∅ = .ok ({"foo"}, ∅) := by
  constructor
  · unfold handle_mutual_excludes
    rw [if_neg (by decide)]
    have hsplit : pySplitChar ":all:" ',' = [":all:"] := by decide
    rw [hsplit, hmeWhile, dif_pos (by decide : (":all:" : String) ∈ [":all:"]),
      if_neg (by decide : ¬ ((":none:" : String) ∈ afterAll [":all:"]))]
  · unfold handle_mutual_excludes
    rw [if_neg (by decide)]
    have hsplit : pySplitChar ":none:,foo" ',' = [":none:", "foo"] := by decide
    rw [hsplit, hmeWhile,
      dif_neg (by decide : ¬ ((":all:" : String) ∈ [":none:", "foo"]))]
    exact congrArg Except.ok
      (by decide : hmeFor [":none:", "foo"] {":all:"} ∅ = ({"foo"}, ∅))

/-- C9: after any finite sequence of `handle_mutual_excludes` updates starting
from empty sets (with either set as target), no name other than the `":all:"`
sentinel — in fact no name at all — lies in both `no_binary` and `only_binary`
simultaneously. -/
theorem no_binary_only_binary_mutual_exclusion (us : List (String × Bool))
    (x : String) (hx : x ≠ ":all:") :
    ¬ (x ∈ (applyMutexDirectives us).1 ∧ x ∈ (applyMutexDirectives us).2) := by
  intro hmem
  exact (Finset.disjoint_left.mp (applyMutexDirectives_disjoint us)) hmem.1 hmem.2

/-- Witness for C9 at the concrete update sequence `[(":all:", no_binary)]`
and name `"foo"`. -/
theorem no_binary_only_binary_mutual_exclusion_witness :
    "foo" ≠ ":all:" ∧
    ¬ ("foo" ∈ (applyMutexDirectives [(":all:", true)]).1 ∧
       "foo" ∈ (applyMutexDirectives [(":all:", true)]).2) :=
  ⟨by decide, no_binary_only_binary_mutual_exclusion [(":all:", true)] "foo" (by decide)⟩

/-! ### URL parsing

Modelled from the spec: the source delegates URL decomposition to the Python
standard library (`urllib.parse.urlsplit`, `unquote`, `parse_qs`); these are
external to the repository and embedded here following their documented
behaviour on ASCII input. -/

/-- A parsed URL, mirroring `urllib.parse.SplitResult`. -/
structure SplitResult where
  scheme : String
  netloc : String
  path : String
  query : String
  fragment : String
deriving DecidableEq

/-- Characters allowed in a URL scheme. -/
def isSchemeChar (c : Char) : Bool :=
  c.isAlpha || c.isDigit || c = '+' || c = '-' || c = '.'

/-- Modelled from the spec: `urllib.parse.urlsplit` — split off `scheme:`
(lowercased) when the text before the first `:` is a non-empty run of scheme
characters, then `//netloc` up to the first `/`, `?` or `#`, then the fragment
at the first `#`, then the query at the first `?`. -/
def urlsplit (url : String) : SplitResult :=
  let l := url.data
  let schemeRest : List Char × List Char :=
    match l.span fun c => isSchemeChar c with
    | (pre, ':' :: rest2) => if pre.isEmpty then ([], l) else (pre.map Char.toLower, rest2)
    | _ => ([], l)
  let rest := schemeRest.2
  let netlocRest : List Char × List Char :=
    if startsWithL ['/', '/'] rest then
      let r := rest.drop 2
      (r.takeWhile fun c => c ≠ '/' && c ≠ '?' && c ≠ '#',
       r.dropWhile fun c => c ≠ '/' && c ≠ '?' && c ≠ '#')
    else ([], rest)
  let fragSplit : List Char × List Char :=
    match splitOnceL ['#'] netlocRest.2 with
    | some (a, b) => (a, b)
    | none => (netlocRest.2, [])
  let querySplit : List Char × List Char :=
    match splitOnceL ['?'] fragSplit.1 with
    | some (a, b) => (a, b)
    | none => (fragSplit.1, [])
  ⟨String.mk schemeRest.1, String.mk netlocRest.1, String.mk querySplit.1,
   String.mk querySplit.2, String.mk fragSplit.2⟩

/-- Hexadecimal digit value. -/
def hexVal (c : Char) : Option Nat :=
  if '0' ≤ c ∧ c ≤ '9' then some (c.toNat - '0'.toNat)
  else if 'a' ≤ c ∧ c ≤ 'f' then some (c.toNat - 'a'.toNat + 10)
  else if 'A' ≤ c ∧ c ≤ 'F' then some (c.toNat - 'A'.toNat + 10)
  else none

/-- Modelled from the spec: `urllib.parse.unquote` percent-decoding for ASCII
input; a `%` not followed by two hex digits stays literal. -/
def unquoteL : List Char → List Char
  | '%' :: a :: b :: rest =>
    match hexVal a, hexVal b with
    | some x, some y => Char.ofNat (16 * x + y) :: unquoteL rest
    | _, _ => '%' :: unquoteL (a :: b :: rest)
  | c :: rest => c :: unquoteL rest
  | [] => []

/-- `urllib.parse.unquote` on a string. -/
def unquote (s : String) : String :=
  String.mk (unquoteL s.data)

/-- `urllib.parse.unquote_plus`: `+` becomes a space, then percent-decode. -/
def unquote_plus (s : String) : String :=
  String.mk (unquoteL (s.data.map fun c => if c = '+' then ' ' else c))

/-- Modelled from the spec: `urllib.parse.parse_qsl` with default arguments —
split the query on `&`, skip empty fields, skip fields without `=` or with an
empty value, and percent-plus-decode names and values. -/
def parse_qsl (qs : String) : List (String × String) :=
  (pySplitChar qs '&').filterMap fun pair =>
    match pySplitOnce pair "=" with
    | none => none
    | some (n, v) => if v = "" then none else some (unquote_plus n, unquote_plus v)

/-- Append one key/value pair to a multi-valued dict kept as an association
list in key-insertion order (the representation of a Python `dict` of lists). -/
def qdictAppend {α : Type} (d : List (String × List α)) (k : String) (v : α) :
    List (String × List α) :=
  match d with
  | [] => [(k, [v])]
  | (k2, vs) :: rest =>
    if k2 = k then (k2, vs ++ [v]) :: rest else (k2, vs) :: qdictAppend rest k v

/-- Modelled from the spec: `urllib.parse.parse_qs` — group `parse_qsl` pairs
by key, preserving value order under each key. -/
def parse_qs (qs : String) : List (String × List String) :=
  (parse_qsl qs).foldl (fun d p => qdictAppend d p.1 p.2) []

/-- Dict lookup in an association list. -/
def qdictLookup {α : Type} (d : List (String × List α)) (k : String) :
    Option (List α) :=
  match d with
  | [] => none
  | (k2, vs) :: rest => if k2 = k then some vs else qdictLookup rest k

/-- Python `dict` equality for multi-valued dicts: key order irrelevant,
value lists compared exactly. -/
def qdictEq (d1 d2 : List (String × List String)) : Bool :=
  (d1.all fun p => qdictLookup d2 p.1 = some p.2) &&
  (d2.all fun p => qdictLookup d1 p.1 = some p.2)

/-- Dict lookup in a single-valued association list. -/
def sdictLookup (d : List (String × String)) (k : String) : Option String :=
  match d with
  | [] => none
  | (k2, v) :: rest => if k2 = k then some v else sdictLookup rest k

/-- Python `dict` equality for single-valued dicts. -/
def sdictEq (d1 d2 : List (String × String)) : Bool :=
  (d1.all fun p => sdictLookup d2 p.1 = some p.2) &&
  (d2.all fun p => sdictLookup d1 p.1 = some p.2)

/-! ### The `Link` model (src/pip_requirements.py:1661-1867) -/

/-- `_SUPPORTED_HASHES` (src/pip_requirements.py:1658). -/
def SUPPORTED_HASHES : List String := ["sha1", "sha224", "sha384", "sha256", "sha512", "md5"]

/-- `Link`: wraps one URL string; everything else is derived. -/
structure Link where
  url : String
deriving DecidableEq

/-- `Link._parsed_url`. -/
def Link.parsed (lk : Link) : SplitResult := urlsplit lk.url

/-- `Link.scheme`. -/
def Link.scheme (lk : Link) : String := lk.parsed.scheme

/-- `Link.netloc`. -/
def Link.netloc (lk : Link) : String := lk.parsed.netloc

/-- `Link.path`: the percent-decoded path component. -/
def Link.path (lk : Link) : String := unquote lk.parsed.path

/-- The regex search `[#&]egg=([^&]*)` (and the analogous `subdirectory=`
search) on the raw URL: the value after the first `#key=` or `&key=`, up to
the next `&`. -/
def fragValueAfter (key : List Char) : List Char → Option String
  | [] => none
  | c :: cs =>
    if (c = '#' || c = '&') && startsWithL key cs then
      some (String.mk ((cs.drop key.length).takeWhile fun d => d ≠ '&'))
    else fragValueAfter key cs

/-- `Link.egg_fragment`. -/
def Link.egg_fragment (lk : Link) : Option String :=
  fragValueAfter "egg=".data lk.url.data

/-- `Link.subdirectory_fragment`. -/
def Link.subdirectory_fragment (lk : Link) : Option String :=
  fragValueAfter "subdirectory=".data lk.url.data

/-- Lowercase hex digit or decimal digit (the `[a-f0-9]` class of
`Link._hash_re`). -/
def isHexLower (c : Char) : Bool :=
  ('a' ≤ c && c ≤ 'f') || ('0' ≤ c && c ≤ '9')

/-- One attempt of `Link._hash_re` at the current position: try each supported
algorithm name, in declaration order, followed by `=` and a non-empty run of
`[a-f0-9]`. -/
def hashMatchAt (l : List Char) : Option (String × String) :=
  SUPPORTED_HASHES.findSome? fun algo =>
    if startsWithL (algo.data ++ ['=']) l then
      let digest := (l.drop (algo.data.length + 1)).takeWhile isHexLower
      if digest.isEmpty then none else some (algo, String.mk digest)
    else none

/-- The regex search of `Link._hash_re`: leftmost match wins. -/
def hashSearch : List Char → Option (String × String)
  | [] => none
  | c :: cs =>
    match hashMatchAt (c :: cs) with
    | some r => some r
    | none => hashSearch cs

/-- `Link.hash_name`. -/
def Link.hash_name (lk : Link) : Option String :=
  (hashSearch lk.url.data).map Prod.fst

/-- `Link.hash`. -/
def Link.hashValue (lk : Link) : Option String :=
  (hashSearch lk.url.data).map Prod.snd

/-- Python `s.rstrip(c)` for a single character. -/
def pyRstripChar (s : String) (c : Char) : String :=
  String.mk ((s.data.reverse.dropWhile fun d => d = c).reverse)

/-- `posixpath.basename`: the part after the last `/`. -/
def posixBasename (s : String) : String := pyAfterLastChar s '/'

/-- Index of the last occurrence of a character. -/
def rfindChar (l : List Char) (c : Char) : Option Nat :=
  match l.reverse.findIdx? fun d => d = c with
  | some i => some (l.length - 1 - i)
  | none => none

/-- Modelled from the spec: `posixpath.splitext` — split off the extension at
the last dot of the basename, unless the basename consists only of leading
dots up to that point. -/
def posixSplitext (p : String) : String × String :=
  let l := p.data
  let sepIndex : Int := match rfindChar l '/' with | some i => (i : Int) | none => -1
  let dotIndex : Int := match rfindChar l '.' with | some i => (i : Int) | none => -1
  if sepIndex < dotIndex then
    let base := (l.drop (sepIndex + 1).toNat).take (dotIndex - sepIndex - 1).toNat
    if base.any fun c => c ≠ '.' then
      (String.mk (l.take dotIndex.toNat), String.mk (l.drop dotIndex.toNat))
    else (p, "")
  else (p, "")

/-- Module-level `splitext` (src/pip_requirements.py:2073-2079): like
`posixpath.splitext` but takes `.tar` off too. -/
def splitext (path : String) : String × String :=
  let be := posixSplitext path
  if pyEndsWith (pyLower be.1) ".tar" then
    (String.mk (be.1.data.take (be.1.data.length - 4)),
     String.mk (be.1.data.drop (be.1.data.length - 4)) ++ be.2)
  else be

/-- `split_auth_from_netloc` (src/pip_requirements.py:2082-2108), keeping only
the auth-stripped netloc. -/
def splitAuthNetloc (netloc : String) : String := pyAfterLastChar netloc '@'

/-- `Link.filename`. -/
def Link.filename (lk : Link) : String :=
  let path := pyRstripChar lk.path '/'
  let name := posixBasename path
  if name = "" then splitAuthNetloc lk.netloc
  else unquote name

/-- `Link.ext`. -/
def Link.ext (lk : Link) : String :=
  (splitext (posixBasename (pyRstripChar lk.path '/'))).2

/-- `WHEEL_EXTENSION` (src/pip_requirements.py:2117). -/
def WHEEL_EXTENSION : String := ".whl"

/-- `Link.is_wheel`. -/
def Link.is_wheel (lk : Link) : Bool := lk.ext = WHEEL_EXTENSION

/-- `vcs_all_schemes` (src/pip_requirements.py:2035-2040). -/
def vcs_all_schemes : List String :=
  ["bzr+http", "bzr+https", "bzr+ssh", "bzr+sftp", "bzr+ftp", "bzr+lp", "bzr+file",
   "git+http", "git+https", "git+ssh", "git+git", "git+file",
   "hg+file", "hg+http", "hg+https", "hg+ssh", "hg+static-http",
   "svn+ssh", "svn+http", "svn+https", "svn+svn", "svn+file"]

/-- `vcs` (src/pip_requirements.py:2042). -/
def vcsNames : List String := ["ssh", "git", "hg", "bzr", "sftp", "svn"]

/-- `Link.is_vcs`. -/
def Link.is_vcs (lk : Link) : Bool := lk.scheme ∈ vcs_all_schemes

/-! ### `_clean_link` and `links_equivalent`
(src/pip_requirements.py:1807-1867) -/

/-- `_CleanResult`. -/
structure CleanResult where
  parsed : SplitResult
  query : List (String × List String)
  subdirectory : String
  hashes : List (String × String)

/-- `_clean_link(link)`. -/
def _clean_link (lk : Link) : CleanResult :=
  let parsed := urlsplit lk.url
  let netloc0 := pyAfterLastChar parsed.netloc '@'
  let netloc := if parsed.scheme = "file" && netloc0 = "" then "localhost" else netloc0
  let fragment := parse_qs parsed.fragment
  let subdirectory :=
    match qdictLookup fragment "subdirectory" with
    | some (v :: _) => v
    | _ => ""
  let hashes := SUPPORTED_HASHES.filterMap fun k =>
    match qdictLookup fragment k with
    | some (v :: _) => some (k, v)
    | _ => none
  ⟨{ parsed with netloc := netloc, query := "", fragment := "" },
   parse_qs parsed.query, subdirectory, hashes⟩

/-- Equality of `_CleanResult` values as Python compares them: field-wise,
with dict fields compared independently of key order. -/
def cleanResultEq (a b : CleanResult) : Bool :=
  decide (a.parsed = b.parsed) && qdictEq a.query b.query &&
  decide (a.subdirectory = b.subdirectory) && sdictEq a.hashes b.hashes

/-- `links_equivalent(link1, link2)` (the `lru_cache` is pure caching and has
no semantic content). -/
def links_equivalent (l1 l2 : Link) : Bool :=
  cleanResultEq (_clean_link l1) (_clean_link l2)

/-- C2: `links_equivalent` identifies `"https://h/x?b=2&a=1#egg=n"` with
`"https://user:pw@h/x?a=1&b=2"` (embedded auth dropped, `egg=` fragment
dropped, query compared as a key-to-value-list mapping), but distinguishes
`"https://h/x?a=1&a=2"` from `"https://h/x?a=2&a=1"`, where only the order of
repeated values under one key differs. -/
theorem links_equivalent_auth_egg_and_value_order :
    links_equivalent ⟨"https://h/x?b=2&a=1#egg=n"⟩ ⟨"https://user:pw@h/x?a=1&b=2"⟩ = true ∧
    links_equivalent ⟨"https://h/x?a=1&a=2"⟩ ⟨"https://h/x?a=2&a=1"⟩ = false := by
  constructor
  · decide
  · decide

/-! ### Line preprocessing (src/pip_requirements.py:1013-1022, 1328-1382) -/

/-- Python line-break characters for `str.splitlines`. -/
def isLineBreak (c : Char) : Bool :=
  c = '\n' || c = '\r' || c = '\x0b' || c = '\x0c' ||
  c = '\x1c' || c = '\x1d' || c = '\x1e' || c = '\u0085' || c = '\u2028' || c = '\u2029'

/-- Worker for `splitlines`. -/
def splitlinesAux : List Char → List Char → List String
  | [], acc => if acc.isEmpty then [] else [String.mk acc.reverse]
  | '\r' :: '\n' :: rest, acc => String.mk acc.reverse :: splitlinesAux rest []
  | c :: rest, acc =>
    if isLineBreak c then String.mk acc.reverse :: splitlinesAux rest []
    else splitlinesAux rest (c :: acc)

/-- Python `content.splitlines()`. -/
def splitlines (content : String) : List String :=
  splitlinesAux content.data []

/-- `enumerate(content.splitlines(), start=1)`. -/
def numberedLines (content : String) : List (Nat × String) :=
  (splitlines content).enumFrom 1 |>.map fun p => (p.1, p.2)

/-- `COMMENT_RE.match(line)` for `COMMENT_RE = re.compile(r"(^|\s+)(#.*)$")`
(src/pip_requirements.py:818): the match at the line start succeeds exactly
when the first character after the leading whitespace run is `#`. -/
def commentMatch (line : String) : Bool :=
  startsWithL ['#'] (line.data.dropWhile fun c => isPySpace c)

/-- The decomposition performed by `COMMENT_RE.split(line)`: cut the line at
the first `#` that sits at the line start or right after whitespace.  Returns
the part before that `#` and the part from it to the end (empty when no such
`#` exists).  The argument carries the previous character, `none` at the
start of the line. -/
def splitCommentL (prev : Option Char) : List Char → List Char × List Char
  | [] => ([], [])
  | c :: cs =>
    if c = '#' && (prev.elim true fun p => isPySpace p) then ([], c :: cs)
    else
      let tc := splitCommentL (some c) cs
      (c :: tc.1, tc.2)

/-- A classified preprocessed line: `TextLine` or `CommentLine`
(src/pip_requirements.py:804-811). -/
inductive PLine where
  | text (line_number : Nat) (line : String)
  | comment (line_number : Nat) (line : String)
deriving DecidableEq

/-- `PLine.line_number`. -/
def PLine.line_number : PLine → Nat
  | .text n _ => n
  | .comment n _ => n

/-- `PLine.line`. -/
def PLine.line : PLine → String
  | .text _ s => s
  | .comment _ s => s

/-- Worker for `join_lines`: the generator state is the pending primary line
number and the accumulated continuation pieces. -/
def joinLinesAux : Option Nat → List String → List (Nat × String) → List (Nat × String)
  | primary, buf, [] =>
    match buf with
    | [] => []
    | _ => [(primary.getD 0, String.join buf)]
  | primary, buf, (n, line) :: rest =>
    if ! pyEndsWith line "\\" || commentMatch line then
      let line2 := if commentMatch line then " " ++ line else line
      match buf with
      | [] => (n, line2) :: joinLinesAux none [] rest
      | _ => (primary.getD 0, String.join (buf ++ [line2])) :: joinLinesAux none [] rest
    else
      match buf with
      | [] => joinLinesAux (some n) [pyStripChar line '\\'] rest
      | _ => joinLinesAux primary (buf ++ [pyStripChar line '\\']) rest

/-- `join_lines(lines_enum)` (src/pip_requirements.py:1328-1356). -/
def join_lines (lines : List (Nat × String)) : List (Nat × String) :=
  joinLinesAux none [] lines

/-- `split_comments(lines_enum)` (src/pip_requirements.py:1359-1382): split
comments from text, strip both parts, drop empty parts. -/
def split_comments (lines : List (Nat × String)) : List PLine :=
  lines.bind fun nl =>
    let tc := splitCommentL none nl.2.data
    let t := pyStrip (String.mk tc.1)
    let com := pyStrip (String.mk tc.2)
    if t = "" then
      if com = "" then []
      else
        if pyStartsWith com "#" then [PLine.comment nl.1 com] else [PLine.text nl.1 com]
    else
      if com = "" then
        if pyStartsWith t "#" then [PLine.comment nl.1 t] else [PLine.text nl.1 t]
      else [PLine.text nl.1 t, PLine.comment nl.1 com]

/-- `preprocess(content)` (src/pip_requirements.py:1013-1022). -/
def preprocess (content : String) : List PLine :=
  split_comments (join_lines (numberedLines content))

/-- C3: preprocessing the two physical lines `"foo \"` and `"  ==1.0"`
(backslash continuation) yields exactly one text record, `"foo   ==1.0"`,
anchored at line 1, the first physical line of the logical line. -/
theorem preprocess_joins_continuation_at_first_line :
    preprocess "foo \\\n  ==1.0" = [PLine.text 1 "foo   ==1.0"] := by decide

/-! ### The `Hashes` verifier (src/pip_requirements.py:1469-1570)

`Hashes._allowed` is a dict mapping algorithm names to lists of accepted hex
digests; it is modelled as an association list in insertion order. -/

/-- `Hashes.__init__`: every value list is sorted. -/
def hashesInit (hashes : List (String × List String)) : List (String × List String) :=
  hashes.map fun p => (p.1, p.2.insertionSort (· ≤ ·))

/-- `Hashes.__bool__`: whether any known-good hash is held. -/
def hashesBool (allowed : List (String × List String)) : Bool :=
  !allowed.isEmpty

/-- The dict comprehension inside `Hashes.__and__`: for each algorithm of
`other` also present in `self`, keep the digests also present in `self`. -/
def hashesAndCore (self other : List (String × List String)) :
    List (String × List String) :=
  other.filterMap fun p =>
    match qdictLookup self p.1 with
    | none => none
    | some vs => some (p.1, p.2.filter fun v => vs.contains v)

/-- `Hashes.__and__(other)` (src/pip_requirements.py:1487-1504). -/
def hashesAnd (self other : List (String × List String)) :
    List (String × List String) :=
  if other.isEmpty then self
  else if self.isEmpty then other
  else hashesInit (hashesAndCore self other)

/-- `Hashes.check_against_chunks(chunks)` (src/pip_requirements.py:1514-1535).
The digest computation itself is `hashlib`, external to the repository, and
is passed in as the function `digest`; chunks are byte lists.  Success is
`ok`; the raised `HashMismatch(self._allowed, gots)` is the error value. -/
def check_against_chunks (digest : String → List (List Nat) → String)
    (allowed : List (String × List String)) (chunks : List (List Nat)) :
    Except (List (String × List String) × List (String × String)) Unit :=
  let gots := allowed.map fun p => (p.1, digest p.1 chunks)
  if gots.any fun g =>
      match qdictLookup allowed g.1 with
      | some vs => vs.contains g.2
      | none => false
  then .ok ()
  else .error (allowed, gots)

theorem qdictLookup_hashesInit (d : List (String × List String)) (k : String) :
    qdictLookup (hashesInit d) k =
      (qdictLookup d k).map fun vs => vs.insertionSort (· ≤ ·) := by
  induction d with
  | nil => rfl
  | cons p rest ih =>
    by_cases hk : p.1 = k
    · simp [hashesInit, qdictLookup, hk]
    · simpa [hashesInit, qdictLookup, hk] using ih

theorem qdictLookup_hashesAndCore (a b : List (String × List String)) (k : String) :
    qdictLookup (hashesAndCore a b) k =
      match qdictLookup a k, qdictLookup b k with
      | some as2, some bs => some (bs.filter fun v => as2.contains v)
      | _, _ => none := by
  induction b with
  | nil =>
    simp only [hashesAndCore, List.filterMap_nil, qdictLookup]
    rcases qdictLookup a k with _ | as2 <;> rfl
  | cons p rest ih =>
    rcases hp : qdictLookup a p.1 with _ | vs
    · by_cases hk : p.1 = k
      · subst hk
        simp only [hashesAndCore, List.filterMap_cons, hp, qdictLookup]
        rw [show (hashesAndCore a rest) = rest.filterMap _ from rfl] at ih
        rw [ih, hp]
      · simpa [hashesAndCore, List.filterMap_cons, hp, qdictLookup, hk] using ih
    · by_cases hk : p.1 = k
      · subst hk
        simp [hashesAndCore, List.filterMap_cons, hp, qdictLookup]
      · simpa [hashesAndCore, List.filterMap_cons, hp, qdictLookup, hk] using ih

/-- C7: intersection of two `Hashes` verifiers — if either operand holds no
algorithm the other operand is returned unchanged; otherwise the result holds
exactly the algorithms present in both operands, and under each such
algorithm exactly the digests accepted by both operands. -/
theorem hashes_intersection_spec (a b : List (String × List String)) :
    (b = [] → hashesAnd a b = a) ∧
    (b ≠ [] → a = [] → hashesAnd a b = b) ∧
    (a ≠ [] → b ≠ [] →
      ∀ alg,
        ((qdictLookup (hashesAnd a b) alg).isSome ↔
          (qdictLookup a alg).isSome ∧ (qdictLookup b alg).isSome) ∧
        ∀ d, d ∈ (qdictLookup (hashesAnd a b) alg).getD [] ↔
          (d ∈ (qdictLookup a alg).getD [] ∧ d ∈ (qdictLookup b alg).getD [])) := by
  refine ⟨fun hb => by simp [hashesAnd, hb], fun hb ha => by simp [hashesAnd, ha, hb], ?_⟩
  intro ha hb alg
  have hform : qdictLookup (hashesAnd a b) alg =
      (match qdictLookup a alg, qdictLookup b alg with
      | some as2, some bs =>
        some ((bs.filter fun v => as2.contains v).insertionSort (· ≤ ·))
      | _, _ => none) := by
    rw [hashesAnd, if_neg (by simpa using hb), if_neg (by simpa using ha),
      qdictLookup_hashesInit, qdictLookup_hashesAndCore]
    rcases qdictLookup a alg with _ | as2 <;> rcases qdictLookup b alg with _ | bs <;> rfl
  rcases hla : qdictLookup a alg with _ | as2 <;>
    rcases hlb : qdictLookup b alg with _ | bs <;>
      rw [hla, hlb] at hform <;> rw [hform] <;>
        simp only [Option.isSome_none, Option.isSome_some, Option.getD_none,
          Option.getD_some, List.not_mem_nil]
  · simp
  · simp
  · simp
  · refine ⟨by simp, fun d => ?_⟩
    rw [List.Perm.mem_iff (List.perm_insertionSort _ _), List.mem_filter]
    simp [and_comm]

/-- Witness for C7 at concrete verifiers: intersecting
`{"sha256": ["aa","bb"]}` with `{"sha256": ["bb","cc"], "md5": ["dd"]}`
accepts digest `"bb"` under `"sha256"`. -/
theorem hashes_intersection_spec_witness :
    "bb" ∈ (qdictLookup (hashesAnd [("sha256", ["aa", "bb"])]
      [("sha256", ["bb", "cc"]), ("md5", ["dd"])]) "sha256").getD [] :=
  (((hashes_intersection_spec [("sha256", ["aa", "bb"])]
      [("sha256", ["bb", "cc"]), ("md5", ["dd"])]).2.2 (by decide) (by decide)
      "sha256").2 "bb").mpr (by decide)

/-- Counterexample to C8 as stated: verifying a non-empty byte stream against
the empty verifier does not succeed — `check_against_chunks` falls through
its final loop and raises `HashMismatch` with empty evidence. -/
theorem empty_hashes_check_raises :
    check_against_chunks (fun _ _ => "") [] [[0]] = .error ([], []) := rfl

/-- C8 (amended): a verifier holding no algorithm is "empty" (its boolean is
false, and intersection treats it as allowing anything), but verifying any
byte stream against it raises the hash-mismatch error with empty
algorithm-to-digest evidence, for every digest function. -/
theorem empty_hashes_is_falsy_and_check_fails
    (digest : String → List (List Nat) → String) (chunks : List (List Nat)) :
    hashesBool [] = false ∧
    check_against_chunks digest [] chunks = .error ([], []) :=
  ⟨rfl, rfl⟩

/-! ### The `Wheel` filename model (src/pip_requirements.py:2462-2539)

`Wheel.wheel_file_re` is embedded as a direct backtracking matcher following
the preference order of the regex engine: lazy groups try shorter matches
first, the optional build group tries to be present first, and the `.whl`
alternative is tried before `.dist-info`. -/

/-- All `(before, after)` cuts of a list, ordered by increasing length of
`before` — the candidate order of a lazy `.*?` group. -/
def splitsInc : List Char → List (List Char × List Char)
  | [] => [([], [])]
  | c :: cs => ([], c :: cs) :: (splitsInc cs).map fun p => (c :: p.1, p.2)

/-- `(?P<plat>.+?)\.whl$`. -/
def matchPlat (l : List Char) : Option String :=
  ((splitsInc l).drop 1).findSome? fun p =>
    if p.2 = ".whl".data && !p.1.isEmpty then some (String.mk p.1) else none

/-- `(?P<abi>.+?)-(?P<plat>.+?)\.whl$`. -/
def matchAbiPlat (l : List Char) : Option (String × String) :=
  ((splitsInc l).drop 1).findSome? fun p =>
    match p.2 with
    | '-' :: rest => (matchPlat rest).map fun plat => (String.mk p.1, plat)
    | _ => none

/-- `(?P<pyver>.+?)-(?P<abi>.+?)-(?P<plat>.+?)\.whl$`. -/
def matchPyAbiPlat (l : List Char) : Option (String × String × String) :=
  ((splitsInc l).drop 1).findSome? fun p =>
    match p.2 with
    | '-' :: rest => (matchAbiPlat rest).map fun t => (String.mk p.1, t.1, t.2)
    | _ => none

/-- `(?P<build>\d[^-]*?)-(?P<pyver>...)...`: a digit, a lazy run of
non-hyphen characters, then the hyphen and the tag fields. -/
def matchBuildRest (l : List Char) : Option (String × String × String × String) :=
  match l with
  | d :: rest =>
    if d.isDigit then
      (splitsInc rest).findSome? fun p =>
        if p.1.all fun c => c ≠ '-' then
          match p.2 with
          | '-' :: rest2 =>
            (matchPyAbiPlat rest2).map fun t => (String.mk (d :: p.1), t)
          | _ => none
        else none
    else none
  | [] => none

/-- `((-(?P<build>\d[^-]*?))?-(?P<pyver>.+?)-(?P<abi>.+?)-(?P<plat>.+?)\.whl`
applied to the text following `namever`: the build group is preferred
present. -/
def matchTail (l : List Char) : Option (Option String × String × String × String) :=
  match l with
  | '-' :: rest =>
    match matchBuildRest rest with
    | some (b, t) => some (some b, t)
    | none => (matchPyAbiPlat rest).map fun t => (none, t)
  | _ => none

/-- The captured groups of `Wheel.wheel_file_re`; the tag groups are `none`
for a `.dist-info` match. -/
structure WheelGroups where
  name : String
  ver : String
  build : Option String
  pyver : Option String
  abi : Option String
  plat : Option String
deriving DecidableEq

/-- `Wheel.wheel_file_re.match(filename)`: `name` is lazy and non-empty,
`ver` lazy and possibly empty, then the wheel alternative before the
`.dist-info` alternative. -/
def wheelMatch (filename : String) : Option WheelGroups :=
  ((splitsInc filename.data).drop 1).findSome? fun p =>
    match p.2 with
    | '-' :: rest =>
      (splitsInc rest).findSome? fun q =>
        match matchTail q.2 with
        | some (b, py, abi, plat) =>
          some ⟨String.mk p.1, String.mk q.1, b, some py, some abi, some plat⟩
        | none =>
          if q.2 = ".dist-info".data then
            some ⟨String.mk p.1, String.mk q.1, none, none, none, none⟩
          else none
    | _ => none

/-- Python `s.replace(a, b)` for single characters. -/
def pyReplaceChar (s : String) (a b : Char) : String :=
  String.mk (s.data.map fun c => if c = a then b else c)

/-- `Wheel` (src/pip_requirements.py:2462-2492). -/
structure Wheel where
  filename : String
  name : String
  version : String
  build_tag : Option String
  pyversions : List String
  abis : List String
  plats : List String
deriving DecidableEq

/-- `Wheel.__init__(filename)`: raises `InvalidWheelFilename` when the regex
does not match; a `.dist-info` match leaves the tag groups as `None` and the
constructor falls over on `None.split` (an `AttributeError`). -/
def wheelInit (filename : String) : Except String Wheel :=
  match wheelMatch filename with
  | none => .error (filename ++ " is not a valid wheel filename.")
  | some g =>
    match g.pyver with
    | none => .error "AttributeError"
    | some py =>
      .ok { filename := filename
            name := pyReplaceChar g.name '_' '-'
            version := pyReplaceChar g.ver '_' '-'
            build_tag := g.build
            pyversions := pySplitChar py '.'
            abis := pySplitChar ((g.abi).getD "") '.'
            plats := pySplitChar ((g.plat).getD "") '.' }

/-- `Wheel.file_tags`: the cross product of the dot-separated tag fields. -/
def Wheel.file_tags (w : Wheel) : List (String × String × String) :=
  w.pyversions.flatMap fun x => w.abis.flatMap fun y => w.plats.map fun z => (x, y, z)

/-- C10: `"sampleproject-1.2.0-py3-none-any.whl"` decomposes into name
`sampleproject`, version `1.2.0`, and the single compatibility tag
`py3-none-any`; the filename `"sampleproject-1.2.0-py3-none.whl"`, which
lacks the platform segment, raises `InvalidWheelFilename`. -/
theorem wheel_filename_decomposition :
    (∃ w, wheelInit "sampleproject-1.2.0-py3-none-any.whl" = .ok w ∧
      w.name = "sampleproject" ∧ w.version = "1.2.0" ∧
      w.file_tags = [("py3", "none", "any")]) ∧
    wheelInit "sampleproject-1.2.0-py3-none.whl" =
      .error "sampleproject-1.2.0-py3-none.whl is not a valid wheel filename." := by
  constructor
  · exact ⟨_, rfl, rfl, rfl, rfl⟩
  · rfl

/-! ### Per-line option decoding (src/pip_requirements.py:475-845, 1264-1325)

The option catalogue (`SUPPORTED_OPTIONS` / `SUPPORTED_OPTIONS_REQ`) is
declared in the source; the generic decoding machinery is Python's
`optparse`, external to the repository, modelled from its documented
behaviour: long options accept `--name value` and `--name=value`, short
options accept `-x value` and `-xvalue`, `--` ends option processing,
unknown options and missing arguments raise errors, and bare words are
collected as ignored positionals. -/

/-- The per-line option state, mirroring the `optparse.Values` fields set by
the declared options.  List-valued options start empty on every line because
`get_line_parser` builds a fresh parser per line; `index_url` starts as
`None` because `get_line_parser` overrides the default. -/
structure Values where
  index_url : Option String := none
  extra_index_urls : List String := []
  noIndexFlag : Bool := false
  constraints : List String := []
  requirements : List String := []
  editables : List String := []
  find_links : List String := []
  prefer_binary : Bool := false
  require_hashes : Bool := false
  pre : Bool := false
  trusted_hosts : List String := []
  features_enabled : List String := []
  install_options : List String := []
  global_options : List String := []
  hashes : List (String × List (Option String)) := []
deriving DecidableEq

/-- `FormatControl` (src/pip_requirements.py:370-444): the two mutually
exclusive name sets. -/
structure FormatControl where
  no_binary : Finset String := ∅
  only_binary : Finset String := ∅
deriving DecidableEq

/-- The declared option kinds in `SUPPORTED_OPTIONS ++ SUPPORTED_OPTIONS_REQ`. -/
inductive OptKind where
  | indexUrl | extraIndexUrl | noIndex | constraintOpt | requirementOpt
  | editableOpt | findLinks | noBinary | onlyBinary | preferBinary
  | requireHashes | preOpt | trustedHost | useFeature | installOption
  | globalOption | hashOption
deriving DecidableEq

/-- The option-string table of the declared options. -/
def optionTable (name : String) : Option OptKind :=
  if name = "-i" || name = "--index-url" || name = "--pypi-url" then some .indexUrl
  else if name = "--extra-index-url" then some .extraIndexUrl
  else if name = "--no-index" then some .noIndex
  else if name = "-c" || name = "--constraint" then some .constraintOpt
  else if name = "-r" || name = "--requirement" then some .requirementOpt
  else if name = "-e" || name = "--editable" then some .editableOpt
  else if name = "-f" || name = "--find-links" then some .findLinks
  else if name = "--no-binary" then some .noBinary
  else if name = "--only-binary" then some .onlyBinary
  else if name = "--prefer-binary" then some .preferBinary
  else if name = "--require-hashes" then some .requireHashes
  else if name = "--pre" then some .preOpt
  else if name = "--trusted-host" then some .trustedHost
  else if name = "--use-feature" then some .useFeature
  else if name = "--install-option" then some .installOption
  else if name = "--global-option" then some .globalOption
  else if name = "--hash" then some .hashOption
  else none

/-- Which options are flags (`store_true`); the rest take one argument. -/
def isFlagOpt : OptKind → Bool
  | .noIndex | .preferBinary | .requireHashes | .preOpt => true
  | _ => false

/-- `--use-feature` choices (src/pip_requirements.py:750). -/
def useFeatureChoices : List String := ["2020-resolver", "fast-deps", "in-tree-build"]

/-- Apply a flag option to the per-line values. -/
def applyFlagOpt : OptKind → Values → Values
  | .noIndex, v => { v with noIndexFlag := true }
  | .preferBinary, v => { v with prefer_binary := true }
  | .requireHashes, v => { v with require_hashes := true }
  | .preOpt, v => { v with pre := true }
  | _, v => v

/-- `_handle_merge_hash` (src/pip_requirements.py:691-715): split at the
first `:`; a value without `:` keeps a `None` digest. -/
def mergeHash (v : Values) (value : String) : Values :=
  match pySplitOnce value ":" with
  | some (algo, digest) => { v with hashes := qdictAppend v.hashes algo (some digest) }
  | none => { v with hashes := qdictAppend v.hashes value none }

/-- Apply a value-taking option: updates the per-line values and, for
`--no-binary`/`--only-binary` (callback options), the shared format control;
those two may raise `CommandError`, and `--use-feature` rejects values
outside its choice list. -/
def applyValueOpt (k : OptKind) (val : String) (v : Values) (fc : FormatControl) :
    Except String (Values × FormatControl) :=
  match k with
  | .indexUrl => .ok ({ v with index_url := some val }, fc)
  | .extraIndexUrl => .ok ({ v with extra_index_urls := v.extra_index_urls ++ [val] }, fc)
  | .constraintOpt => .ok ({ v with constraints := v.constraints ++ [val] }, fc)
  | .requirementOpt => .ok ({ v with requirements := v.requirements ++ [val] }, fc)
  | .editableOpt => .ok ({ v with editables := v.editables ++ [val] }, fc)
  | .findLinks => .ok ({ v with find_links := v.find_links ++ [val] }, fc)
  | .noBinary =>
    (handle_mutual_excludes val fc.no_binary fc.only_binary).map fun p => (v, ⟨p.1, p.2⟩)
  | .onlyBinary =>
    (handle_mutual_excludes val fc.only_binary fc.no_binary).map fun p => (v, ⟨p.2, p.1⟩)
  | .trustedHost => .ok ({ v with trusted_hosts := v.trusted_hosts ++ [val] }, fc)
  | .useFeature =>
    if val ∈ useFeatureChoices then
      .ok ({ v with features_enabled := v.features_enabled ++ [val] }, fc)
    else .error ("option --use-feature: invalid choice: " ++ val)
  | .installOption => .ok ({ v with install_options := v.install_options ++ [val] }, fc)
  | .globalOption => .ok ({ v with global_options := v.global_options ++ [val] }, fc)
  | .hashOption => .ok (mergeHash v val, fc)
  | _ => .ok (v, fc)

/-- What the `optparse` loop does with one token, before any state change. -/
inductive DecodeAction where
  | stop
  | skip
  | fail (msg : String)
  | setFlag (k : OptKind)
  | withVal (k : OptKind) (val : String)
  | needArg (k : OptKind) (disp : String)
deriving DecidableEq

/-- Classify one token the way `optparse` does: `--` ends option processing,
`--name=value` and `--name value` long forms, `-xvalue` and `-x value` short
forms, unknown options and flags given `=values` fail, anything else is an
ignored positional. -/
def classifyTok (tok : String) : DecodeAction :=
  if tok = "--" then .stop
  else if pyStartsWith tok "--" then
    match pySplitOnce tok "=" with
    | some (name, attached) =>
      match optionTable name with
      | none => .fail ("no such option: " ++ name)
      | some k =>
        if isFlagOpt k then .fail ("option " ++ name ++ " does not take a value")
        else .withVal k attached
    | none =>
      match optionTable tok with
      | none => .fail ("no such option: " ++ tok)
      | some k => if isFlagOpt k then .setFlag k else .needArg k tok
  else if pyStartsWith tok "-" && tok ≠ "-" then
    let name := String.mk (tok.data.take 2)
    let attached := String.mk (tok.data.drop 2)
    match optionTable name with
    | none => .fail ("no such option: " ++ name)
    | some k =>
      if isFlagOpt k then
        if attached = "" then .setFlag k else .fail ("no such option: " ++ tok)
      else
        if attached = "" then .needArg k name else .withVal k attached
  else .skip

/-- The `optparse` token loop.  On error, the format control as mutated so
far accompanies the message (shared state is not rolled back in Python). -/
def decodeOptions : List String → Values → FormatControl →
    Except (String × FormatControl) (Values × FormatControl)
  | [], v, fc => .ok (v, fc)
  | tok :: rest, v, fc =>
    match classifyTok tok with
    | .stop => .ok (v, fc)
    | .skip => decodeOptions rest v fc
    | .fail msg => .error (msg, fc)
    | .setFlag k => decodeOptions rest (applyFlagOpt k v) fc
    | .withVal k val =>
      match applyValueOpt k val v fc with
      | .ok p => decodeOptions rest p.1 p.2
      | .error e => .error (e, fc)
    | .needArg k disp =>
      match rest with
      | [] => .error ("option " ++ disp ++ " requires an argument", fc)
      | arg :: rest2 =>
        match applyValueOpt k arg v fc with
        | .ok p => decodeOptions rest2 p.1 p.2
        | .error e => .error (e, fc)

/-- Modelled from the spec: `shlex.split` on quote-free text — split on
whitespace runs, dropping empty tokens. -/
def shlexSplitAux : List Char → List Char → List String
  | [], acc => if acc.isEmpty then [] else [String.mk acc.reverse]
  | c :: cs, acc =>
    if isPySpace c then
      if acc.isEmpty then shlexSplitAux cs []
      else String.mk acc.reverse :: shlexSplitAux cs []
    else shlexSplitAux cs (c :: acc)

/-- `shlex.split(options_str)`. -/
def shlexSplit (s : String) : List String := shlexSplitAux s.data []

/-- `" ".join(parts)`. -/
def joinSpace : List String → String
  | [] => ""
  | [s] => s
  | s :: rest => s ++ " " ++ joinSpace rest

/-- `", ".join(parts)`. -/
def joinComma : List String → String
  | [] => ""
  | [s] => s
  | s :: rest => s ++ ", " ++ joinComma rest

/-- `break_args_options(line)` (src/pip_requirements.py:1283-1297): tokens up
to the first token starting with `-` form the args span; the rest is the
option span. -/
def break_args_options (line : String) : String × String :=
  let tokens := pySplitChar line ' '
  let args := tokens.takeWhile fun t => !pyStartsWith t "-"
  (joinSpace args, joinSpace (tokens.drop args.length))

/-- `get_line_parser(finder)`'s inner `parse_line` (src/pip_requirements.py:
1264-1280): fresh per-line option state, shared format control. -/
def parse_line (fc : FormatControl) (line : String) :
    Except (String × FormatControl) (String × Values × FormatControl) :=
  let ao := break_args_options line
  match decodeOptions (shlexSplit ao.2) {} fc with
  | .ok p => .ok (ao.1, p.1, p.2)
  | .error e => .error e

/-! ### Line records and the recursive file parser
(src/pip_requirements.py:848-969, 1134-1261, 1385-1399) -/

/-- `RequirementLine` (src/pip_requirements.py:864-904). -/
structure ReqLine where
  line : String
  line_number : Nat
  filename : String
deriving DecidableEq

/-- `ParsedLine` (src/pip_requirements.py:945-969). -/
structure ParsedLine where
  requirement_line : ReqLine
  requirement_string : String
  opts : Values
  is_constraint : Bool
deriving DecidableEq

/-- `ParsedLine.is_requirement`. -/
def ParsedLine.is_requirement (pl : ParsedLine) : Bool :=
  pl.requirement_string != "" || !pl.opts.editables.isEmpty

/-- `ParsedLine.is_editable`. -/
def ParsedLine.is_editable (pl : ParsedLine) : Bool :=
  pl.requirement_string = "" && !pl.opts.editables.isEmpty

/-- The requirement string of a requirement-bearing `ParsedLine` (the args
span, or the first `-e` value). -/
def ParsedLine.reqString (pl : ParsedLine) : String :=
  if pl.requirement_string != "" then pl.requirement_string
  else pl.opts.editables.headD ""

/-- One record yielded by `RequirementsFileParser._parse_file`:
`ParsedLine`, `InvalidRequirementLine` or `CommentRequirementLine`. -/
inductive Record where
  | parsed (pl : ParsedLine)
  | invalid (requirement_line : ReqLine) (error_message : String)
  | comment (line : ReqLine)
deriving DecidableEq

/-- A file system: filename-to-content map (file reading and `auto_decode`
are external; a missing entry stands for any `OSError`). -/
def FileSys := List (String × String)

/-- `get_file_content(filename)` (src/pip_requirements.py:1385-1399): an
unreadable file raises `InstallationError`. -/
def getFileContent (fs : FileSys) (filename : String) : Except String String :=
  match sdictLookup fs filename with
  | some content => .ok content
  | none => .error ("Could not open requirements file: " ++ filename)

/-- `SCHEME_RE.search` for `SCHEME_RE = re.compile(r"^(http|https|file):", re.I)`. -/
def schemeMatch (s : String) : Bool :=
  let ls := pyLower s
  pyStartsWith ls "http:" || pyStartsWith ls "https:" || pyStartsWith ls "file:"

/-- `posixpath.dirname`. -/
def posixDirname (p : String) : String :=
  let i := match rfindChar p.data '/' with | some k => k + 1 | none => 0
  let head := String.mk (p.data.take i)
  if head ≠ "" && head.data.any (fun c => c ≠ '/') then pyRstripChar head '/' else head

/-- `os.path.join(a, b)` on POSIX. -/
def posixJoin (a b : String) : String :=
  if pyStartsWith b "/" then b
  else if a = "" || pyEndsWith a "/" then a ++ b
  else a ++ "/" ++ b

/-- Modelled from the spec: `urllib.parse.urljoin` restricted to absolute,
scheme-relative, absolute-path and plain relative references (no dot-segment
normalization, query or fragment merging) — the shapes requirement files
use. -/
def urljoin (base url : String) : String :=
  if url = "" then base
  else
    let bu := urlsplit base
    let uu := urlsplit url
    if uu.scheme ≠ "" then url
    else if pyStartsWith url "//" then bu.scheme ++ ":" ++ url
    else if pyStartsWith url "/" then bu.scheme ++ "://" ++ bu.netloc ++ url
    else
      let dirLen := match rfindChar bu.path.data '/' with | some k => k + 1 | none => 0
      bu.scheme ++ "://" ++ bu.netloc ++ String.mk (bu.path.data.take dirLen) ++ url

/-- Nested-path resolution in `_parse_and_recurse`
(src/pip_requirements.py:1199-1210). -/
def resolveNested (filename reqPath : String) : String :=
  if schemeMatch filename then urljoin filename reqPath
  else if !schemeMatch reqPath then posixJoin (posixDirname filename) reqPath
  else reqPath

/-- The include-trigger test of `_parse_and_recurse`
(src/pip_requirements.py:1179-1183), minus the `include_nested` flag. -/
def isIncludeLine (pl : ParsedLine) : Bool :=
  !pl.is_requirement && (!pl.opts.requirements.isEmpty || !pl.opts.constraints.isEmpty)

/-- The nested path and constraint flag chosen by `_parse_and_recurse`
(src/pip_requirements.py:1185-1197): `-r` wins over `-c`, and the flag is
fixed by the directive alone. -/
def includeTarget (pl : ParsedLine) : String × Bool :=
  match pl.opts.requirements with
  | p :: _ => (p, false)
  | [] => (pl.opts.constraints.headD "", true)

/-- The recursion tree of `_parse_and_recurse`: a `rec` leaf is a yielded
record; a `nested` node records the include-triggering `ParsedLine` (which
is consumed, not yielded) and the subtrees of the nested parse.  The
generator's output is the flattening of this tree. -/
inductive RTree where
  | record (r : Record)
  | nested (includeLine : ParsedLine) (sub : List RTree)

/-- The per-record loop of `_parse_and_recurse` driving `_parse_file`
(src/pip_requirements.py:1177-1261): comments and invalid lines are yielded,
include lines trigger a nested parse, other parsed lines are yielded.  The
nested parse — `_parse_and_recurse` one call-stack level deeper — is passed
in as `nested` (taking the resolved path, the directive-fixed constraint
flag and the format control at that point). -/
def processLines
    (nested : String → Bool → FormatControl → Except String (List RTree × FormatControl))
    (filename : String) (is_constraint : Bool) (include_nested : Bool) :
    List PLine → FormatControl → Except String (List RTree × FormatControl)
  | [], fc => .ok ([], fc)
  | pl :: rest, fc =>
    match pl with
    | .comment n line =>
      match processLines nested filename is_constraint include_nested rest fc with
      | .error e => .error e
      | .ok r => .ok (RTree.record (Record.comment ⟨line, n, filename⟩) :: r.1, r.2)
    | .text n line =>
      match parse_line fc line with
      | .error (msg, fc2) =>
        match processLines nested filename is_constraint include_nested rest fc2 with
        | .error e => .error e
        | .ok r => .ok (RTree.record (Record.invalid ⟨line, n, filename⟩ msg) :: r.1, r.2)
      | .ok (args, v, fc2) =>
        let pline : ParsedLine := ⟨⟨line, n, filename⟩, args, v, is_constraint⟩
        if include_nested && isIncludeLine pline then
          match nested (resolveNested filename (includeTarget pline).1)
              (includeTarget pline).2 fc2 with
          | .error e => .error e
          | .ok sub =>
            match processLines nested filename is_constraint include_nested rest sub.2 with
            | .error e => .error e
            | .ok r => .ok (RTree.nested pline sub.1 :: r.1, r.2)
        else
          match processLines nested filename is_constraint include_nested rest fc2 with
          | .error e => .error e
          | .ok r => .ok (RTree.record (Record.parsed pline) :: r.1, r.2)

/-- `RequirementsFileParser._parse_and_recurse` (src/pip_requirements.py:
1161-1218), as the recursion tree.  `fuel` bounds the include depth: the
source has no cycle guard and recurses on the call stack, so a depth
overrun is modelled as an error. -/
def parseAndRecurseT (fs : FileSys) :
    Nat → String → Bool → Bool → FormatControl →
    Except String (List RTree × FormatControl)
  | 0, _, _, _, _ => .error "maximum include recursion depth exceeded"
  | fuel + 1, filename, is_constraint, include_nested, fc =>
    match getFileContent fs filename with
    | .error e => .error e
    | .ok content =>
      processLines (fun path d fc2 => parseAndRecurseT fs fuel path d include_nested fc2)
        filename is_constraint include_nested (preprocess content) fc
termination_by structural fuel => fuel

mutual

/-- Flatten one tree into the record sequence the generator yields. -/
def RTree.flatten : RTree → List Record
  | .record r => [r]
  | .nested _ sub => flattenList sub

/-- Flatten a forest. -/
def flattenList : List RTree → List Record
  | [] => []
  | t :: ts => t.flatten ++ flattenList ts

end

/-- `RequirementsFileParser.parse`: the flat record sequence. -/
def parseAndRecurse (fuel : Nat) (fs : FileSys) (filename : String)
    (is_constraint : Bool) (include_nested : Bool) (fc : FormatControl) :
    Except String (List Record × FormatControl) :=
  match parseAndRecurseT fs fuel filename is_constraint include_nested fc with
  | .ok p => .ok (flattenList p.1, p.2)
  | .error e => .error e

/-! ### The external requirement-grammar engine

The spec places the requirement grammar out of scope, as an opaque engine
with `parse(string) -> Requirement | error`; the source uses
`packaging.requirements.Requirement`.  The model below parses the PEP-508
shape `name[extras] specifiers ; marker` and `name @ url`, with a permissive
version character set (anything except whitespace and commas), and treats a
marker clause as opaque validated text. -/

/-- Modelled from the spec: the grammar engine's `Requirement` value
(name, extras, comparator clauses, optional marker, optional direct URL). -/
structure Requirement where
  name : String
  extras : List String
  specifier : List String
  marker : Option String
  url : Option String
deriving DecidableEq

/-- `Specifier._operators.keys()` (src/pip_requirements.py:2146). -/
def operators : List String := ["~=", "==", "!=", "<=", ">=", "<", ">", "==="]

/-- Characters of a project name (letters, digits, `.`, `-`, `_`). -/
def isNameChar (c : Char) : Bool :=
  c.isAlphanum || c = '.' || c = '-' || c = '_'

/-- Modelled from the spec: one comparator clause of the grammar engine —
an operator from the catalogue followed by a non-empty version with no
whitespace or commas.  Returns the normalized `op ++ version` text. -/
def parseSpecClause (s : String) : Option String :=
  let t := pyStrip s
  match ["===", "==", "~=", "!=", "<=", ">=", "<", ">"].find? (fun op => pyStartsWith t op) with
  | none => none
  | some op =>
    let ver := pyStrip (String.mk (t.data.drop op.data.length))
    if ver ≠ "" && ver.data.all (fun c => !isPySpace c && c ≠ ',') then some (op ++ ver)
    else none

/-- Modelled from the spec: the grammar engine's `parse(string)`
(`packaging.requirements.Requirement(...)`), returning a `Requirement` or an
`InvalidRequirement` error. -/
def parseRequirementString (s : String) : Except String Requirement := do
  let (beforeMarker, marker) ←
    match pySplitOnce (pyStrip s) ";" with
    | some (a, b) =>
      let m := pyStrip b
      if m = "" then throw "Invalid requirement" else pure (a, some m)
    | none => pure (pyStrip s, none)
  let l := (pyStrip beforeMarker).data
  let nameChars := l.takeWhile isNameChar
  if nameChars.isEmpty then throw "Invalid requirement"
  let rest1 := (l.drop nameChars.length).dropWhile isPySpace
  let (extras, rest2) ←
    match rest1 with
    | '[' :: more =>
      let inner := more.takeWhile fun c => c ≠ ']'
      match more.drop inner.length with
      | ']' :: tail =>
        let exs := (pySplitChar (String.mk inner) ',').map pyStrip
        if inner.isEmpty then pure (([] : List String), tail)
        else if exs.all (fun e => e ≠ "") then pure (exs, tail)
        else throw "Invalid requirement"
      | _ => throw "Invalid requirement"
    | other => pure ([], other)
  let restS := pyStrip (String.mk rest2)
  if pyStartsWith restS "@" then
    let url := pyStrip (String.mk (restS.data.drop 1))
    if url = "" then throw "Invalid requirement"
    pure ⟨String.mk nameChars, extras, [], marker, some url⟩
  else if restS = "" then
    pure ⟨String.mk nameChars, extras, [], marker, none⟩
  else
    match (pySplitChar restS ',').mapM parseSpecClause with
    | some clauses => pure ⟨String.mk nameChars, extras, clauses, marker, none⟩
    | none => throw "Invalid requirement"

/-- `safe_extra` (src/pip_requirements.py:1640-1649): runs of characters
outside `[A-Za-z0-9.-]` become one `_`, then lowercase. -/
def safeExtraAux : Bool → List Char → List Char
  | _, [] => []
  | prevRep, c :: rest =>
    if c.isAlphanum || c = '.' || c = '-' then c.toLower :: safeExtraAux false rest
    else if prevRep then safeExtraAux true rest
    else '_' :: safeExtraAux true rest

/-- `safe_extra(extra)`. -/
def safe_extra (extra : String) : String :=
  String.mk (safeExtraAux false extra.data)

/-! ### The requirement classifier and constructors
(src/pip_requirements.py:2045-2052, 2131-2455) -/

/-- `get_url_scheme(url)` (src/pip_requirements.py:1408-1411). -/
def get_url_scheme (url : String) : Option String :=
  if !pyContains url ":" then none
  else some (pyLower (String.mk (url.data.takeWhile fun c => c ≠ ':')))

/-- `is_url(name)` (src/pip_requirements.py:2045-2052). -/
def is_url (name : String) : Bool :=
  match get_url_scheme name with
  | none => false
  | some scheme => (["http", "https", "file", "ftp"] ++ vcs_all_schemes).contains scheme

/-- `_strip_extras(path)` (src/pip_requirements.py:2149-2158): the regex
`^(.+)(\[[^\]]+\])$` — a trailing bracket group with non-empty,
bracket-free content, starting at the last `[`. -/
def _strip_extras (path : String) : String × Option String :=
  let l := path.data
  if pyEndsWith path "]" then
    let body := l.dropLast
    match rfindChar body '[' with
    | some i =>
      if 1 ≤ i then
        let content := body.drop (i + 1)
        if !content.isEmpty && content.all (fun c => c ≠ ']') then
          (String.mk (l.take i), some (String.mk (l.drop i)))
        else (path, none)
      else (path, none)
    | none => (path, none)
  else (path, none)

/-- `_looks_like_path(name)` (src/pip_requirements.py:2279-2295) on POSIX
(`os.path.sep = "/"`, no altsep). -/
def _looks_like_path (name : String) : Bool :=
  pyContains name "/" || pyStartsWith name "."

/-- `ARCHIVE_EXTENSIONS` (src/pip_requirements.py:2117-2128). -/
def ARCHIVE_EXTENSIONS : List String :=
  [".zip", ".whl", ".tar.bz2", ".tbz", ".tar.gz", ".tgz", ".tar",
   ".tar.xz", ".txz", ".tlz", ".tar.lz", ".tar.lzma"]

/-- `is_archive_file(name)` (src/pip_requirements.py:2131-2136). -/
def is_archive_file (name : String) : Bool :=
  ARCHIVE_EXTENSIONS.contains (pyLower (splitext name).2)

/-- `_get_url_from_path(path, name)` (src/pip_requirements.py:2298-2318). -/
def _get_url_from_path (path name : String) : Option String :=
  if _looks_like_path name then some path
  else if !is_archive_file path then none
  else
    match pySplitOnce name "@" with
    | some (before, _) => if !_looks_like_path before then none else some path
    | none => some path

/-- `RequirementParts` (src/pip_requirements.py:2218-2229). -/
structure RequirementParts where
  requirement : Option Requirement
  link : Option Link
  markers : Option String
  extras : List String
deriving DecidableEq

/-- `convert_extras(extras)` (src/pip_requirements.py:2161-2164). -/
def convert_extras (extras : Option String) : Except String (List String) :=
  match extras with
  | none => .ok []
  | some ex =>
    if ex = "" then .ok []
    else
      match parseRequirementString ("placeholder" ++ pyLower ex) with
      | .ok r => .ok r.extras
      | .error e => .error e

/-- `parse_req_from_line(name)` (src/pip_requirements.py:2321-2407).  The
marker clause is handed to the external grammar engine, modelled as
accepting any non-empty text. -/
def parse_req_from_line (name0 : String) : Except String RequirementParts := do
  let markerSep := if is_url name0 then "; " else ";"
  let (name1, markers) :=
    match pySplitOnce name0 markerSep with
    | some (pre, post) =>
      let m := pyStrip post
      if m = "" then (pre, none) else (pre, some m)
    | none => (name0, none)
  let name := pyStrip name1
  let (link0, extras_as_string) :=
    if is_url name then (some (Link.mk name), none)
    else
      let pe := _strip_extras name
      match _get_url_from_path pe.1 name with
      | some url => (some (Link.mk url), pe.2)
      | none => (none, pe.2)
  let (req_as_string, link) ←
    match link0 with
    | some lk0 => do
      let lk := if lk0.scheme = "file" && pyContains lk0.url "../" then Link.mk lk0.path
        else lk0
      if lk.is_wheel then
        match wheelInit lk.filename with
        | .error e => throw e
        | .ok w => pure (some (w.name ++ "==" ++ w.version), some lk)
      else pure (lk.egg_fragment, some lk)
    | none => pure (some name, none)
  let extras ← convert_extras extras_as_string
  match req_as_string with
  | none => pure ⟨none, link, markers, extras⟩
  | some rs =>
    match parseRequirementString rs with
    | .error _ =>
      let add_msg :=
        if pyContains rs "/" then "It looks like a path."
        else if pyContains rs "=" && !(operators.any fun op => pyContains rs op) then
          "= is not a valid operator. Did you mean == ?"
        else ""
      throw (if add_msg = "" then "Invalid requirement"
        else "Invalid requirement\nHint: " ++ add_msg)
    | .ok r =>
      match r.specifier.find? (fun sp => pyEndsWith sp "]") with
      | some sp => throw ("Extras after version '" ++ sp ++ "'.")
      | none => pure ⟨some r, link, markers, extras⟩

/-- `parse_editable(editable_req)` (src/pip_requirements.py:2167-2215):
returns the optional project name, the URL and the extras. -/
def parse_editable (editable_req : String) :
    Except String (Option String × String × List String) := do
  let (url_no_extras, extras) := _strip_extras editable_req
  if pyStartsWith (pyLower url_no_extras) "file:" || pyStartsWith (pyLower url_no_extras) "." then
    let package_name := Link.egg_fragment ⟨url_no_extras⟩
    match extras with
    | some ex =>
      match parseRequirementString ("placeholder" ++ pyLower ex) with
      | .ok r => pure (package_name, url_no_extras, r.extras)
      | .error e => throw e
    | none => pure (package_name, url_no_extras, [])
  else
    let url :=
      match vcsNames.find? (fun vc => pyStartsWith (pyLower editable_req) (vc ++ ":")) with
      | some vc => vc ++ "+" ++ editable_req
      | none => editable_req
    let lk : Link := ⟨url⟩
    if !lk.is_vcs || !_looks_like_path url then
      throw (editable_req ++ " is not a valid editable requirement. It should either " ++
        "be a path to a local project or a VCS URL (beginning with " ++
        joinComma vcs_all_schemes ++ ").")
    else
      match lk.egg_fragment with
      | none =>
        throw ("Could not detect requirement name for '" ++ editable_req ++
          "', please specify one with #egg=your_package_name")
      | some pn =>
        if pn = "" then
          throw ("Could not detect requirement name for '" ++ editable_req ++
            "', please specify one with #egg=your_package_name")
        else pure (some pn, url, [])

/-- `parse_req_from_editable(editable_req)` (src/pip_requirements.py:
2232-2251). -/
def parse_req_from_editable (editable_req : String) : Except String RequirementParts := do
  let (name, url, extras_override) ← parse_editable editable_req
  let req ←
    match name with
    | some n =>
      match parseRequirementString n with
      | .ok r => pure (some r)
      | .error _ => throw ("Invalid requirement: '" ++ n ++ "'")
    | none => pure none
  pure ⟨req, some ⟨url⟩, none, extras_override⟩

/-- `InstallRequirement` (src/pip_requirements.py:1876-1921). -/
structure InstallRequirement where
  req : Option Requirement
  requirement_line : ReqLine
  is_editable : Bool
  link : Option Link
  markers : Option String
  install_options : List String
  global_options : List String
  hash_options : List (String × List (Option String))
  is_constraint : Bool
  extras : List String
deriving DecidableEq

/-- `InstallRequirement.__init__`: derives the link from a PEP-508 URL
requirement, the extras from the grammar requirement (via `safe_extra`) when
none were supplied, and the markers from the grammar requirement. -/
def mkInstallRequirement (req : Option Requirement) (rl : ReqLine)
    (is_editable : Bool) (link : Option Link) (markers : Option String)
    (install_options global_options : List String)
    (hash_options : List (String × List (Option String)))
    (is_constraint : Bool) (extras : List String) : InstallRequirement :=
  let link2 :=
    match link, req with
    | none, some r => (r.url).map Link.mk
    | l, _ => l
  let extras2 :=
    if !extras.isEmpty then extras
    else
      match req with
      | some r => r.extras.map safe_extra
      | none => []
  let markers2 :=
    match markers, req with
    | none, some r => r.marker
    | m, _ => m
  ⟨req, rl, is_editable, link2, markers2, install_options, global_options,
    hash_options, is_constraint, extras2⟩

/-- The requirement-scoped options (`SUPPORTED_OPTIONS_REQ_DEST` entries of
`handle_requirement_line`); an absent key and an empty list coincide for
every downstream use. -/
structure ReqOptions where
  install_options : List String := []
  global_options : List String := []
  hashes : List (String × List (Option String)) := []
deriving DecidableEq

/-- `ParsedRequirement` (src/pip_requirements.py:848-861). -/
structure ParsedRequirement where
  requirement_string : String
  is_editable : Bool
  is_constraint : Bool
  options : ReqOptions
  requirement_line : ReqLine
deriving DecidableEq

/-- `install_req_from_line` (src/pip_requirements.py:2410-2434). -/
def install_req_from_line (name : String) (options : ReqOptions)
    (is_constraint : Bool) (rl : ReqLine) : Except String InstallRequirement := do
  let parts ← parse_req_from_line name
  pure (mkInstallRequirement parts.requirement rl false parts.link parts.markers
    options.install_options options.global_options options.hashes is_constraint
    parts.extras)

/-- `install_req_from_editable` (src/pip_requirements.py:2257-2276). -/
def install_req_from_editable (editable_req : String) (rl : ReqLine)
    (options : ReqOptions) (is_constraint : Bool) :
    Except String InstallRequirement := do
  let parts ← parse_req_from_editable editable_req
  pure (mkInstallRequirement parts.requirement rl true parts.link parts.markers
    options.install_options options.global_options options.hashes is_constraint
    parts.extras)

/-- `install_req_from_parsed_requirement` (src/pip_requirements.py:
2437-2453); the editable path passes no options. -/
def install_req_from_parsed_requirement (pr : ParsedRequirement) :
    Except String InstallRequirement :=
  if pr.is_editable then
    install_req_from_editable pr.requirement_string pr.requirement_line {} pr.is_constraint
  else
    install_req_from_line pr.requirement_string pr.options pr.is_constraint
      pr.requirement_line

/-! ### Aggregation: `handle_line`, `parse_requirements`, `RequirementsFile`
(src/pip_requirements.py:93-207, 762-796, 972-1131)

In the source the records are pulled lazily and `handle_line` runs
interleaved with parsing; since a line's record never depends on the shared
state, the embedding parses first and folds `handle_line` over the records
afterwards. -/

/-- `PackageFinder` (src/pip_requirements.py:762-796); note the source
initializes `_prefer_binary` to `True`. -/
structure Finder where
  format_control : FormatControl := {}
  find_links : List String := []
  index_urls : List String := []
  allow_all_prereleases : Bool := false
  prefer_binary : Bool := true
deriving DecidableEq

/-- The option state percolated upward by `handle_option_line`
(`require_hashes`, `features_enabled`). -/
structure GlobalOptions where
  require_hashes : Bool := false
  features_enabled : List String := []
deriving DecidableEq

/-- `FormatControl.disallow_binaries` (src/pip_requirements.py:433-438). -/
def disallowBinaries (fc : FormatControl) : FormatControl :=
  match handle_mutual_excludes ":all:" fc.no_binary fc.only_binary with
  | .ok p => ⟨p.1, p.2⟩
  | .error _ => fc

/-- `handle_option_line(opts, finder, options)`
(src/pip_requirements.py:1061-1092). -/
def handle_option_line (opts : Values) (finder : Finder) (g : GlobalOptions) :
    Finder × GlobalOptions :=
  let g2 : GlobalOptions :=
    { require_hashes := g.require_hashes || opts.require_hashes
      features_enabled := opts.features_enabled.foldl
        (fun acc f => if acc.contains f then acc else acc ++ [f]) g.features_enabled }
  let idx :=
    match opts.index_url with
    | some u => if u = "" then [] else [u]
    | none => []
  ({ finder with
      index_urls := finder.index_urls ++ idx ++ opts.extra_index_urls
      find_links := finder.find_links ++ opts.find_links
      allow_all_prereleases := finder.allow_all_prereleases || opts.pre
      prefer_binary := finder.prefer_binary || opts.prefer_binary }, g2)

/-- One output of `parse_requirements`: `ParsedRequirement`,
`InvalidRequirementLine` or `CommentRequirementLine`. -/
inductive ParseOut where
  | req (pr : ParsedRequirement)
  | invalid (rl : ReqLine) (msg : String)
  | comment (rl : ReqLine)
deriving DecidableEq

/-- `parse_requirements`' record loop (src/pip_requirements.py:993-1010)
with `handle_line` (1095-1131), `handle_requirement_line` (1025-1058) and
`check_install_build_global` (454-472) inlined: requirement lines become
`ParsedRequirement`s (disabling binaries first when the line carries
install/global options), option lines fold into the finder and global
state. -/
def handleRecords : List Record → Finder → GlobalOptions →
    List ParseOut × Finder × GlobalOptions
  | [], finder, g => ([], finder, g)
  | r :: rest, finder, g =>
    match r with
    | .comment rl =>
      let o := handleRecords rest finder g
      (ParseOut.comment rl :: o.1, o.2)
    | .invalid rl msg =>
      let o := handleRecords rest finder g
      (ParseOut.invalid rl msg :: o.1, o.2)
    | .parsed pl =>
      if pl.is_requirement then
        if pl.is_editable then
          let o := handleRecords rest finder g
          (ParseOut.req ⟨pl.reqString, true, pl.is_constraint, {}, pl.requirement_line⟩
            :: o.1, o.2)
        else
          let finder2 :=
            if !pl.opts.install_options.isEmpty || !pl.opts.global_options.isEmpty then
              { finder with format_control := disallowBinaries finder.format_control }
            else finder
          let o := handleRecords rest finder2 g
          (ParseOut.req ⟨pl.reqString, false, pl.is_constraint,
              ⟨pl.opts.install_options, pl.opts.global_options, pl.opts.hashes⟩,
              pl.requirement_line⟩ :: o.1, o.2)
      else
        let fg := handle_option_line pl.opts finder g
        handleRecords rest fg.1 fg.2

/-- The record-routing loop of `RequirementsFile.__init__`
(src/pip_requirements.py:116-142): requirement construction errors become
invalid lines.  Returns installs, invalid lines and comment lines in input
order. -/
def buildReqsAux : List ParseOut →
    List InstallRequirement × List (ReqLine × String) × List ReqLine
  | [] => ([], [], [])
  | o :: rest =>
    let r := buildReqsAux rest
    match o with
    | .comment rl => (r.1, r.2.1, rl :: r.2.2)
    | .invalid rl msg => (r.1, (rl, msg) :: r.2.1, r.2.2)
    | .req pr =>
      match install_req_from_parsed_requirement pr with
      | .ok ir => (ir :: r.1, r.2.1, r.2.2)
      | .error e => (r.1, (pr.requirement_line, e) :: r.2.1, r.2.2)

/-- `RequirementsFile` (src/pip_requirements.py:93-166). -/
structure RequirementsFileModel where
  filename : String
  install_requirements : List InstallRequirement
  invalid_lines : List (ReqLine × String)
  comment_lines : List ReqLine
  find_links : List String
  index_urls : List String
  options : GlobalOptions
  format_control : FormatControl
deriving DecidableEq

/-- `RequirementsFile.__init__(filename, include_nested)`: parse, route
records, collect finder state.  A file error propagates. -/
def buildRequirementsFile (fuel : Nat) (fs : FileSys) (filename : String)
    (include_nested : Bool) : Except String RequirementsFileModel :=
  match parseAndRecurse fuel fs filename false include_nested {} with
  | .error e => .error e
  | .ok (records, fcEnd) =>
    let hr := handleRecords records { format_control := fcEnd } {}
    let br := buildReqsAux hr.1
    .ok { filename := filename
          install_requirements := br.1
          invalid_lines := br.2.1
          comment_lines := br.2.2
          find_links := hr.2.1.find_links
          index_urls := hr.2.1.index_urls
          options := hr.2.2
          format_control := hr.2.1.format_control }

/-- The sort key of `RequirementsFile.dumps`
(src/pip_requirements.py:193): `(line_number, comment-sorts-after)`. -/
def dumpKeyLe (a b : ReqLine × Bool) : Bool :=
  a.1.line_number < b.1.line_number ||
    (a.1.line_number = b.1.line_number && (!a.2 || b.2))

/-- The emission loop of `RequirementsFile.dumps`
(src/pip_requirements.py:188-207), carrying the previous line number and the
emitted lines in reverse: a comment sharing its line number with the
previous record is appended to the previous emitted line. -/
def dumpsAux : List (ReqLine × Bool) → Nat → List String → List String
  | [], _, revDumped => revDumped.reverse
  | e :: rest, prevNum, revDumped =>
    if prevNum = e.1.line_number && e.2 then
      match revDumped with
      | prev :: others =>
        dumpsAux rest e.1.line_number ((pyRstripChar prev '\n' ++ " " ++ e.1.line ++ "\n")
          :: others)
      | [] => dumpsAux rest e.1.line_number [e.1.line ++ "\n"]
    else dumpsAux rest e.1.line_number ((e.1.line ++ "\n") :: revDumped)

/-- `RequirementsFile.dumps()` (default `unparse=False`): requirement and
invalid lines, then comment lines, stably sorted by the key, then emitted. -/
def RequirementsFileModel.dumps (rf : RequirementsFileModel) : String :=
  let entries : List (ReqLine × Bool) :=
    (rf.install_requirements.map fun ir => (ir.requirement_line, false)) ++
    (rf.invalid_lines.map fun p => (p.1, false)) ++
    (rf.comment_lines.map fun rl => (rl, true))
  let sorted := entries.insertionSort fun a b => dumpKeyLe a b = true
  String.join (dumpsAux sorted 0 [])

/-- C4: parsing the single line `"pkg==1.0  # note"` yields exactly one
requirement record (grammar name `pkg`, specifier `==1.0`, anchored at
line 1), no invalid lines, and one comment record `"# note"` at line 1; the
`dumps` reconstruction re-emits the single output line `"pkg==1.0 # note"`. -/
theorem parse_and_reconstruct_pkg_comment :
    ∃ rf, buildRequirementsFile 2 [("reqs.txt", "pkg==1.0  # note")] "reqs.txt" false
        = .ok rf ∧
      rf.install_requirements.map (fun ir => (ir.req, ir.requirement_line)) =
        [(some ⟨"pkg", [], ["==1.0"], none, none⟩, ⟨"pkg==1.0", 1, "reqs.txt"⟩)] ∧
      rf.invalid_lines = [] ∧
      rf.comment_lines = [⟨"# note", 1, "reqs.txt"⟩] ∧
      rf.dumps = "pkg==1.0 # note\n" :=
  ⟨_, rfl, rfl, rfl, rfl, rfl⟩

/-! ### C5: nested-file constraint tagging -/

/-- The records sitting directly in a forest — the records of the file whose
parse produced the forest, as opposed to records of nested includes. -/
def directRecords (ts : List RTree) : List Record :=
  ts.filterMap fun t => match t with | .record r => some r | _ => none

mutual

/-- All include nodes inside one tree: the include-triggering line paired
with the forest its nested parse produced. -/
def nestedPairsOf : RTree → List (ParsedLine × List RTree)
  | .record _ => []
  | .nested inc sub => (inc, sub) :: nestedPairsList sub

/-- All include nodes inside a forest. -/
def nestedPairsList : List RTree → List (ParsedLine × List RTree)
  | [] => []
  | t :: ts => nestedPairsOf t ++ nestedPairsList ts

end

theorem includeTarget_snd (pl : ParsedLine) :
    (includeTarget pl).2 = pl.opts.requirements.isEmpty := by
  rcases h : pl.opts.requirements with _ | ⟨p, rest⟩ <;> simp [includeTarget, h]

/-- The two flag properties threaded through the recursion: direct parsed
records of this forest carry flag `c`, and every include node anywhere below
carries records flagged by its own directive. -/
def FlagsOk (ts : List RTree) (c : Bool) : Prop :=
  (∀ pl, Record.parsed pl ∈ directRecords ts → pl.is_constraint = c) ∧
  (∀ p ∈ nestedPairsList ts, isIncludeLine p.1 = true ∧
    ∀ pl, Record.parsed pl ∈ directRecords p.2 →
      pl.is_constraint = p.1.opts.requirements.isEmpty)

theorem flagsOk_nil (c : Bool) : FlagsOk [] c := by
  constructor
  · intro pl h; simp [directRecords] at h
  · intro p h; simp [nestedPairsList] at h

theorem flagsOk_cons_record {ts : List RTree} {c : Bool} (r : Record)
    (hr : ∀ pl, r = Record.parsed pl → pl.is_constraint = c)
    (h : FlagsOk ts c) : FlagsOk (RTree.record r :: ts) c := by
  constructor
  · intro pl hm
    simp only [directRecords, List.filterMap_cons] at hm
    rcases List.mem_cons.mp hm with h1 | h1
    · exact hr pl h1.symm
    · exact h.1 pl h1
  · intro p hp
    simp only [nestedPairsList, nestedPairsOf, List.nil_append] at hp
    exact h.2 p hp

theorem flagsOk_cons_nested {ts sub : List RTree} {c : Bool} (inc : ParsedLine)
    (hinc : isIncludeLine inc = true)
    (hsub : FlagsOk sub (inc.opts.requirements.isEmpty))
    (h : FlagsOk ts c) : FlagsOk (RTree.nested inc sub :: ts) c := by
  constructor
  · intro pl hm
    simp only [directRecords, List.filterMap_cons] at hm
    exact h.1 pl hm
  · intro p hp
    simp only [nestedPairsList, nestedPairsOf] at hp
    rcases List.mem_append.mp hp with h1 | h1
    · rcases List.mem_cons.mp h1 with h2 | h2
      · subst h2
        exact ⟨hinc, hsub.1⟩
      · exact hsub.2 p h2
    · exact h.2 p h1

theorem processLines_flags
    (nested : String → Bool → FormatControl → Except String (List RTree × FormatControl))
    (hnested : ∀ path d fc r, nested path d fc = .ok r → FlagsOk r.1 d)
    (filename : String) (c : Bool) :
    ∀ (lines : List PLine) (fc : FormatControl) (r : List RTree × FormatControl),
      processLines nested filename c true lines fc = .ok r → FlagsOk r.1 c := by
  intro lines
  induction lines with
  | nil =>
    intro fc r h
    simp only [processLines, Except.ok.injEq] at h
    rw [← h]
    exact flagsOk_nil c
  | cons pl rest ih =>
    intro fc r h
    cases pl with
    | comment n line =>
      rw [processLines] at h
      rcases hrec : processLines nested filename c true rest fc with e | r2
      · simp only [hrec] at h
        exact Except.noConfusion h
      · simp only [hrec, Except.ok.injEq] at h
        rw [← h]
        exact flagsOk_cons_record _ (by intro pl hx; cases hx) (ih fc r2 hrec)
    | text n line =>
      rw [processLines] at h
      rcases hpl : parse_line fc line with ⟨msg, fc2⟩ | ⟨args, v, fc2⟩
      · simp only [hpl] at h
        rcases hrec : processLines nested filename c true rest fc2 with e | r2
        · simp only [hrec] at h
          exact Except.noConfusion h
        · simp only [hrec, Except.ok.injEq] at h
          rw [← h]
          exact flagsOk_cons_record _ (by intro pl hx; cases hx) (ih fc2 r2 hrec)
      · simp only [hpl] at h
        by_cases hinc : isIncludeLine ⟨⟨line, n, filename⟩, args, v, c⟩
        · simp only [hinc, Bool.true_and, if_true] at h
          rcases hsub : nested
              (resolveNested filename (includeTarget ⟨⟨line, n, filename⟩, args, v, c⟩).1)
              (includeTarget ⟨⟨line, n, filename⟩, args, v, c⟩).2 fc2 with e | sub
          · simp only [hsub] at h
            exact Except.noConfusion h
          · simp only [hsub] at h
            rcases hrec : processLines nested filename c true rest sub.2 with e | r2
            · simp only [hrec] at h
              exact Except.noConfusion h
            · simp only [hrec, Except.ok.injEq] at h
              rw [← h]
              refine flagsOk_cons_nested _ hinc ?_ (ih sub.2 r2 hrec)
              have hflags := hnested _ _ _ _ hsub
              rwa [includeTarget_snd] at hflags
        · simp only [hinc, Bool.false_eq_true, Bool.true_and, if_false] at h
          rcases hrec : processLines nested filename c true rest fc2 with e | r2
          · simp only [hrec] at h
            exact Except.noConfusion h
          · simp only [hrec, Except.ok.injEq] at h
            rw [← h]
            refine flagsOk_cons_record _ ?_ (ih fc2 r2 hrec)
            intro pl hx
            cases hx
            rfl

theorem parseAndRecurseT_flags :
    ∀ (fuel : Nat) (fs : FileSys) (f : String) (b : Bool) (fc : FormatControl)
      (r : List RTree × FormatControl),
      parseAndRecurseT fs fuel f b true fc = .ok r → FlagsOk r.1 b := by
  intro fuel
  induction fuel with
  | zero =>
    intro fs f b fc r h
    simp only [parseAndRecurseT] at h
    exact Except.noConfusion h
  | succ n ih =>
    intro fs f b fc r h
    rw [parseAndRecurseT] at h
    rcases hgc : getFileContent fs f with e | content
    · simp only [hgc] at h
      exact Except.noConfusion h
    · simp only [hgc] at h
      exact processLines_flags _ (fun path d fc2 r2 hok => ih fs path d fc2 r2 hok)
        f b (preprocess content) fc r h

/-- C5: in any nested-inclusion parse, the `is_constraint` flag of every
record produced from a nested file equals the directive that triggered its
inclusion — `true` exactly when the `requirements` option of the including
line is empty (a `-c` or `--constraint` include), `false` for `-r` or
`--requirement` — independent of the constraint flag `b` under which the
including file itself was parsed, while the root file's own records carry
`b`. -/
theorem nested_records_flag_fixed_by_directive (fuel : Nat) (fs : FileSys)
    (f : String) (b : Bool) (fc : FormatControl) (r : List RTree × FormatControl)
    (hok : parseAndRecurseT fs fuel f b true fc = .ok r) :
    (∀ pl, Record.parsed pl ∈ directRecords r.1 → pl.is_constraint = b) ∧
    (∀ p ∈ nestedPairsList r.1, isIncludeLine p.1 = true ∧
      ∀ pl, Record.parsed pl ∈ directRecords p.2 →
        pl.is_constraint = p.1.opts.requirements.isEmpty) :=
  parseAndRecurseT_flags fuel fs f b fc r hok

/-- Witness for C5: a root file parsed as a requirements file (`b = false`)
that includes `sub.txt` via `-c`; the theorem applies with the concrete
parse discharged by `rfl`. -/
theorem nested_records_flag_fixed_by_directive_witness :
    ∃ r, parseAndRecurseT [("root.txt", "-c sub.txt\npkg==1.0"), ("sub.txt", "dep==2.0")]
        2 "root.txt" false true {} = .ok r ∧
      (∀ pl, Record.parsed pl ∈ directRecords r.1 → pl.is_constraint = false) ∧
      (∀ p ∈ nestedPairsList r.1, isIncludeLine p.1 = true ∧
        ∀ pl, Record.parsed pl ∈ directRecords p.2 →
          pl.is_constraint = p.1.opts.requirements.isEmpty) :=
  ⟨_, rfl, nested_records_flag_fixed_by_directive 2
    [("root.txt", "-c sub.txt\npkg==1.0"), ("sub.txt", "dep==2.0")]
    "root.txt" false {} _ rfl⟩

/-! ### C6: per-line failures versus per-file failures

A line record never depends on the accumulated format control (the only
shared state the line parser reads), established by the `..._fc` lemmas
below; a per-line decode failure therefore yields an invalid record while
the rest of the file still parses, whereas an unreadable file raises. -/

/-- A `handle_mutual_excludes` call errors exactly on a leading `-`, with a
fixed message, regardless of the current sets. -/
theorem handle_mutual_excludes_status (val : String) (t o : Finset String) :
    (pyStartsWith val "-" = true ∧ handle_mutual_excludes val t o =
      .error "--no-binary / --only-binary option requires 1 argument.") ∨
    (pyStartsWith val "-" = false ∧ ∃ p, handle_mutual_excludes val t o = .ok p) := by
  by_cases h : pyStartsWith val "-"
  · exact Or.inl ⟨h, by simp [handle_mutual_excludes, h]⟩
  · refine Or.inr ⟨by simpa using h, ?_⟩
    unfold handle_mutual_excludes
    rw [if_neg (by simpa using h)]
    rcases hw : hmeWhile (pySplitChar val ',') t o with ⟨b, rem, t2, o2⟩
    cases b
    · exact ⟨_, rfl⟩
    · exact ⟨_, rfl⟩

/-- Forget the format control in an option-application result. -/
def stripFcV : Except String (Values × FormatControl) → Except String Values
  | .ok p => .ok p.1
  | .error e => .error e

/-- The per-line values produced (or the error raised) by one option
application do not depend on the accumulated format control. -/
theorem applyValueOpt_fc (k : OptKind) (val : String) (v : Values)
    (fc fc' : FormatControl) :
    stripFcV (applyValueOpt k val v fc) = stripFcV (applyValueOpt k val v fc') := by
  cases k
  case noBinary =>
    simp only [applyValueOpt]
    rcases handle_mutual_excludes_status val fc.no_binary fc.only_binary with
      ⟨h1, h2⟩ | ⟨h1, p, h2⟩ <;>
      rcases handle_mutual_excludes_status val fc'.no_binary fc'.only_binary with
        ⟨h1', h2'⟩ | ⟨h1', p', h2'⟩
    · rw [h2, h2']
    · rw [h1] at h1'; exact Bool.noConfusion h1'
    · rw [h1] at h1'; exact Bool.noConfusion h1'
    · rw [h2, h2']; rfl
  case onlyBinary =>
    simp only [applyValueOpt]
    rcases handle_mutual_excludes_status val fc.only_binary fc.no_binary with
      ⟨h1, h2⟩ | ⟨h1, p, h2⟩ <;>
      rcases handle_mutual_excludes_status val fc'.only_binary fc'.no_binary with
        ⟨h1', h2'⟩ | ⟨h1', p', h2'⟩
    · rw [h2, h2']
    · rw [h1] at h1'; exact Bool.noConfusion h1'
    · rw [h1] at h1'; exact Bool.noConfusion h1'
    · rw [h2, h2']; rfl
  case useFeature =>
    simp only [applyValueOpt]
    by_cases hv : val ∈ useFeatureChoices
    · rw [if_pos hv, if_pos hv]
      rfl
    · rw [if_neg hv, if_neg hv]
  all_goals rfl

/-- Forget the format control in a full decode result. -/
def stripFcD : Except (String × FormatControl) (Values × FormatControl) →
    Except String Values
  | .ok p => .ok p.1
  | .error e => .error e.1

theorem decodeOptions_fc_aux :
    ∀ (n : Nat) (toks : List String), toks.length ≤ n →
      ∀ (v : Values) (fc fc' : FormatControl),
        stripFcD (decodeOptions toks v fc) = stripFcD (decodeOptions toks v fc') := by
  intro n
  induction n with
  | zero =>
    intro toks hl v fc fc'
    have : toks = [] := List.length_eq_zero.mp (Nat.le_zero.mp hl)
    subst this
    rfl
  | succ n ih =>
    intro toks hl v fc fc'
    rcases toks with _ | ⟨tok, rest⟩
    · rfl
    have hrest : rest.length ≤ n := Nat.le_of_succ_le_succ hl
    have step : ∀ (k : OptKind) (val : String) (cl : List String), cl.length ≤ n →
        ∀ (v2 : Values),
        stripFcD (match applyValueOpt k val v2 fc with
          | .ok p => decodeOptions cl p.1 p.2
          | .error e => .error (e, fc)) =
        stripFcD (match applyValueOpt k val v2 fc' with
          | .ok p => decodeOptions cl p.1 p.2
          | .error e => .error (e, fc')) := by
      intro k val cl hcl v2
      have hav := applyValueOpt_fc k val v2 fc fc'
      rcases hA : applyValueOpt k val v2 fc with e | p <;> rw [hA] at hav <;>
        rcases hB : applyValueOpt k val v2 fc' with e2 | p2 <;> rw [hB] at hav <;>
          simp only [stripFcV, Except.error.injEq, Except.ok.injEq] at hav
      · show stripFcD (.error (e, fc)) = stripFcD (.error (e2, fc'))
        simp only [stripFcD, hav]
      · exact Except.noConfusion hav
      · exact Except.noConfusion hav
      · show stripFcD (decodeOptions cl p.1 p.2) = stripFcD (decodeOptions cl p2.1 p2.2)
        rw [← hav]
        exact ih cl hcl p.1 p.2 p2.2
    rw [decodeOptions, decodeOptions]
    rcases hct : classifyTok tok with _ | _ | msg | k | ⟨k, val⟩ | ⟨k, disp⟩
    · rfl
    · exact ih rest hrest v fc fc'
    · rfl
    · exact ih rest hrest (applyFlagOpt k v) fc fc'
    · exact step k val rest hrest v
    · rcases rest with _ | ⟨arg, rest2⟩
      · rfl
      · exact step k arg rest2 (Nat.le_of_succ_le hrest) v

theorem decodeOptions_fc (toks : List String) (v : Values) (fc fc' : FormatControl) :
    stripFcD (decodeOptions toks v fc) = stripFcD (decodeOptions toks v fc') :=
  decodeOptions_fc_aux toks.length toks (Nat.le_refl _) v fc fc'

/-- Forget the format control in a line-parse result. -/
def stripFcP : Except (String × FormatControl) (String × Values × FormatControl) →
    Except String (String × Values)
  | .ok p => .ok (p.1, p.2.1)
  | .error e => .error e.1

/-- The requirement string, decoded options, and failure message of a line do
not depend on the accumulated format control. -/
theorem parse_line_fc (fc fc' : FormatControl) (line : String) :
    stripFcP (parse_line fc line) = stripFcP (parse_line fc' line) := by
  have h := decodeOptions_fc (shlexSplit (break_args_options line).2) {} fc fc'
  unfold parse_line
  rcases hA : decodeOptions (shlexSplit (break_args_options line).2) {} fc with e | p <;>
    rw [hA] at h <;>
    rcases hB : decodeOptions (shlexSplit (break_args_options line).2) {} fc' with e2 | p2 <;>
      rw [hB] at h <;>
        simp only [stripFcD, Except.error.injEq, Except.ok.injEq] at h
  · simp only [hA, hB, stripFcP, h]
  · exact Except.noConfusion h
  · exact Except.noConfusion h
  · simp only [hA, hB, stripFcP, h]

theorem parse_line_fc_ok {fc : FormatControl} {line args : String} {v : Values}
    {fcx : FormatControl} (h : parse_line fc line = .ok (args, v, fcx))
    (fc' : FormatControl) : ∃ fcy, parse_line fc' line = .ok (args, v, fcy) := by
  have he := parse_line_fc fc fc' line
  rw [h] at he
  rcases hB : parse_line fc' line with e | p
  · rw [hB] at he
    simp [stripFcP] at he
  · rw [hB] at he
    rcases p with ⟨a, b, fcy⟩
    simp only [stripFcP, Except.ok.injEq, Prod.mk.injEq] at he
    refine ⟨fcy, ?_⟩
    rw [← he.1, ← he.2]

theorem parse_line_fc_error {fc : FormatControl} {line msg : String}
    {fcx : FormatControl} (h : parse_line fc line = .error (msg, fcx))
    (fc' : FormatControl) : ∃ fcy, parse_line fc' line = .error (msg, fcy) := by
  have he := parse_line_fc fc fc' line
  rw [h] at he
  rcases hB : parse_line fc' line with e | p
  · rw [hB] at he
    rcases e with ⟨m2, fcy⟩
    simp only [stripFcP, Except.error.injEq] at he
    refine ⟨fcy, ?_⟩
    rw [← he]
  · rw [hB] at he
    simp [stripFcP] at he

/-- The record `_parse_file` produces for one preprocessed line, computed
with the default format control (legitimate by `parse_line_fc`). -/
def lineRecord (filename : String) (c : Bool) : PLine → Record
  | .comment n line => .comment ⟨line, n, filename⟩
  | .text n line =>
    match parse_line {} line with
    | .ok (args, v, _) => .parsed ⟨⟨line, n, filename⟩, args, v, c⟩
    | .error (msg, _) => .invalid ⟨line, n, filename⟩ msg

theorem processLines_no_nested
    (nested : String → Bool → FormatControl → Except String (List RTree × FormatControl))
    (filename : String) (c : Bool) :
    ∀ (lines : List PLine) (fc : FormatControl), ∃ fc2,
      processLines nested filename c false lines fc =
        .ok (lines.map fun pl => RTree.record (lineRecord filename c pl), fc2) := by
  intro lines
  induction lines with
  | nil => intro fc; exact ⟨fc, rfl⟩
  | cons pl rest ih =>
    intro fc
    cases pl with
    | comment n line =>
      obtain ⟨fc2, hr⟩ := ih fc
      refine ⟨fc2, ?_⟩
      rw [processLines]
      simp only [hr]
      rfl
    | text n line =>
      rcases hpl : parse_line fc line with ⟨msg, fcx⟩ | ⟨args, v, fcx⟩
      · obtain ⟨fc2, hr⟩ := ih fcx
        obtain ⟨fcy, hpl0⟩ := parse_line_fc_error hpl {}
        refine ⟨fc2, ?_⟩
        rw [processLines]
        simp only [hpl, hr, List.map_cons, lineRecord, hpl0]
      · obtain ⟨fc2, hr⟩ := ih fcx
        obtain ⟨fcy, hpl0⟩ := parse_line_fc_ok hpl {}
        refine ⟨fc2, ?_⟩
        rw [processLines]
        simp only [hpl, Bool.false_and, Bool.false_eq_true, if_false, hr, List.map_cons,
          lineRecord, hpl0]

theorem parse_file_line_errors_isolated (fuel : Nat) (fs : FileSys) (f : String)
    (c : Bool) (fc : FormatControl) (content : String)
    (h : sdictLookup fs f = some content) :
    ∃ fc2, parseAndRecurseT fs (fuel + 1) f c false fc =
      .ok ((preprocess content).map fun pl => RTree.record (lineRecord f c pl), fc2) := by
  rw [parseAndRecurseT]
  have hgc : getFileContent fs f = .ok content := by simp [getFileContent, h]
  simp only [hgc]
  exact processLines_no_nested _ f c (preprocess content) fc

theorem parse_file_missing_fatal (fuel : Nat) (fs : FileSys) (f : String)
    (c inc : Bool) (fc : FormatControl) (h : sdictLookup fs f = none) :
    parseAndRecurseT fs (fuel + 1) f c inc fc =
      .error ("Could not open requirements file: " ++ f) := by
  rw [parseAndRecurseT]
  simp [getFileContent, h]

theorem parseT_missing (fs : FileSys) (fuel : Nat) (p : String) (d : Bool)
    (fc : FormatControl) (h : sdictLookup fs p = none) :
    ∃ e, parseAndRecurseT fs fuel p d true fc = .error e := by
  cases fuel with
  | zero => exact ⟨_, rfl⟩
  | succ m => exact ⟨_, parse_file_missing_fatal m fs p d true fc h⟩

/-- The resolved include path a text line triggers, if any (computed with
the default format control; legitimate by `parse_line_fc`). -/
def includePathOf (filename line : String) : Option String :=
  match parse_line {} line with
  | .ok (args, v, _) =>
    let pline : ParsedLine := ⟨⟨line, 0, filename⟩, args, v, false⟩
    if isIncludeLine pline then some (resolveNested filename (includeTarget pline).1)
    else none
  | .error _ => none

theorem nested_missing_fatal_aux (fs : FileSys) (fuel : Nat) (filename : String)
    (c : Bool) :
    ∀ (lines : List PLine) (fc : FormatControl) (n : Nat) (line p : String),
      PLine.text n line ∈ lines →
      includePathOf filename line = some p →
      sdictLookup fs p = none →
      ∃ e, processLines (fun path d fc2 => parseAndRecurseT fs fuel path d true fc2)
        filename c true lines fc = .error e := by
  intro lines
  induction lines with
  | nil =>
    intro fc n line p hmem
    exact absurd hmem (List.not_mem_nil _)
  | cons pl rest ih =>
    intro fc n line p hmem hip hmiss
    rcases List.mem_cons.mp hmem with heq | hmem2
    · rcases hip0 : parse_line ({} : FormatControl) line with e0 | ⟨args, v, fcz⟩
      · simp only [includePathOf, hip0] at hip
        exact Option.noConfusion hip
      · cases heq
        obtain ⟨fcy, hplfc⟩ := parse_line_fc_ok hip0 fc
        simp only [includePathOf, hip0] at hip
        by_cases hinc0 : isIncludeLine ⟨⟨line, 0, filename⟩, args, v, false⟩
        · have hinc : isIncludeLine ⟨⟨line, n, filename⟩, args, v, c⟩ = true := hinc0
          rw [if_pos hinc0] at hip
          have hres : resolveNested filename
              (includeTarget ⟨⟨line, n, filename⟩, args, v, c⟩).1 = p := by
            have : (includeTarget ⟨⟨line, n, filename⟩, args, v, c⟩).1 =
                (includeTarget ⟨⟨line, 0, filename⟩, args, v, false⟩).1 := rfl
            rw [this]
            exact Option.some.inj hip
          obtain ⟨e, hsub⟩ := parseT_missing fs fuel p
            (includeTarget ⟨⟨line, n, filename⟩, args, v, c⟩).2 fcy hmiss
          refine ⟨e, ?_⟩
          rw [processLines]
          simp only [hplfc, hinc, Bool.true_and, if_true, hres, hsub]
        · rw [if_neg hinc0] at hip
          exact Option.noConfusion hip
    · cases pl with
      | comment m l2 =>
        obtain ⟨e, he⟩ := ih fc n line p hmem2 hip hmiss
        refine ⟨e, ?_⟩
        rw [processLines]
        simp only [he]
      | text m l2 =>
        rcases hpl : parse_line fc l2 with ⟨msg, fcx⟩ | ⟨args, v, fcx⟩
        · obtain ⟨e, he⟩ := ih fcx n line p hmem2 hip hmiss
          refine ⟨e, ?_⟩
          rw [processLines]
          simp only [hpl, he]
        · by_cases hinc : isIncludeLine ⟨⟨l2, m, filename⟩, args, v, c⟩
          · rcases hsub : parseAndRecurseT fs fuel
                (resolveNested filename (includeTarget ⟨⟨l2, m, filename⟩, args, v, c⟩).1)
                (includeTarget ⟨⟨l2, m, filename⟩, args, v, c⟩).2 true fcx with e | sub
            · refine ⟨e, ?_⟩
              rw [processLines]
              simp only [hpl, hinc, Bool.true_and, if_true, hsub]
            · obtain ⟨e, he⟩ := ih sub.2 n line p hmem2 hip hmiss
              refine ⟨e, ?_⟩
              rw [processLines]
              simp only [hpl, hinc, Bool.true_and, if_true, hsub, he]
          · obtain ⟨e, he⟩ := ih fcx n line p hmem2 hip hmiss
            refine ⟨e, ?_⟩
            rw [processLines]
            simp only [hpl, hinc, Bool.false_eq_true, Bool.true_and, if_false, he]

theorem nested_missing_fatal (fuel : Nat) (fs : FileSys) (f : String) (c : Bool)
    (fc : FormatControl) (content : String) (n : Nat) (line p : String)
    (hc : sdictLookup fs f = some content)
    (hmem : PLine.text n line ∈ preprocess content)
    (hip : includePathOf f line = some p)
    (hmiss : sdictLookup fs p = none) :
    ∃ e, parseAndRecurseT fs (fuel + 1) f c true fc = .error e := by
  rw [parseAndRecurseT]
  have hgc : getFileContent fs f = .ok content := by simp [getFileContent, hc]
  simp only [hgc]
  exact nested_missing_fatal_aux fs fuel f c (preprocess content) fc n line p hmem hip hmiss

/-- C6: per-line failures are isolated while file failures are fatal —
(1) when the file is readable, a parse without nested inclusion always
succeeds and yields exactly one record per logical line, where a line whose
option decoding fails becomes an invalid record carrying the offending line
and the failure message (`lineRecord`); (2) an unreadable root file raises
`InstallationError` for the whole parse; (3) an unreadable nested include
aborts the entire parse with an error; (4) a requirement-construction error
becomes an invalid line of the `RequirementsFile` while all other records
are kept. -/
theorem line_errors_isolated_file_errors_fatal :
    (∀ (fuel : Nat) (fs : FileSys) (f : String) (c : Bool) (fc : FormatControl)
        (content : String), sdictLookup fs f = some content →
      ∃ fc2, parseAndRecurseT fs (fuel + 1) f c false fc =
        .ok ((preprocess content).map fun pl => RTree.record (lineRecord f c pl), fc2)) ∧
    (∀ (fuel : Nat) (fs : FileSys) (f : String) (c inc : Bool) (fc : FormatControl),
      sdictLookup fs f = none →
      parseAndRecurseT fs (fuel + 1) f c inc fc =
        .error ("Could not open requirements file: " ++ f)) ∧
    (∀ (fuel : Nat) (fs : FileSys) (f : String) (c : Bool) (fc : FormatControl)
        (content : String) (n : Nat) (line p : String),
      sdictLookup fs f = some content →
      PLine.text n line ∈ preprocess content →
      includePathOf f line = some p →
      sdictLookup fs p = none →
      ∃ e, parseAndRecurseT fs (fuel + 1) f c true fc = .error e) ∧
    (∀ (outs : List ParseOut) (pr : ParsedRequirement) (e : String),
      install_req_from_parsed_requirement pr = .error e →
      buildReqsAux (ParseOut.req pr :: outs) =
        ((buildReqsAux outs).1, (pr.requirement_line, e) :: (buildReqsAux outs).2.1,
          (buildReqsAux outs).2.2)) :=
  ⟨parse_file_line_errors_isolated,
   parse_file_missing_fatal,
   fun fuel fs f c fc content n line p hc hmem hip hmiss =>
     nested_missing_fatal fuel fs f c fc content n line p hc hmem hip hmiss,
   fun outs pr e he => by simp [buildReqsAux, he]⟩

/-- Witness for C6 at concrete inputs: a file whose second line fails to
decode still parses with an invalid record; a missing root file raises; a
missing `-r` target aborts; an unparsable requirement string becomes an
invalid line. -/
theorem line_errors_isolated_file_errors_fatal_witness :
    (∃ fc2, parseAndRecurseT [("a.txt", "pkg==1.0\n--nosuch")] 1 "a.txt" false false {} =
      .ok ((preprocess "pkg==1.0\n--nosuch").map fun pl =>
        RTree.record (lineRecord "a.txt" false pl), fc2)) ∧
    parseAndRecurseT [("a.txt", "pkg==1.0")] 1 "missing.txt" false false {} =
      .error ("Could not open requirements file: " ++ "missing.txt") ∧
    (∃ e, parseAndRecurseT [("root.txt", "-r gone.txt")] 1 "root.txt" false true {} =
      .error e) ∧
    buildReqsAux [ParseOut.req ⟨"==1.0", false, false, {}, ⟨"==1.0", 1, "a.txt"⟩⟩] =
      ((buildReqsAux []).1,
       ((⟨"==1.0", 1, "a.txt"⟩ : ReqLine), "Invalid requirement") :: (buildReqsAux []).2.1,
       (buildReqsAux []).2.2) :=
  ⟨line_errors_isolated_file_errors_fatal.1 0 _ "a.txt" false {} _ rfl,
   line_errors_isolated_file_errors_fatal.2.1 0 _ "missing.txt" false false {} rfl,
   line_errors_isolated_file_errors_fatal.2.2.1 0 _ "root.txt" false {} "-r gone.txt"
     1 "-r gone.txt" "gone.txt" rfl (by decide) rfl rfl,
   line_errors_isolated_file_errors_fatal.2.2.2 []
     ⟨"==1.0", false, false, {}, ⟨"==1.0", 1, "a.txt"⟩⟩ "Invalid requirement" rfl⟩

end PipReq
